import Mathlib

/-!
Verification development for the bash-command normalizer
(src/bashlex/normalizer.py of the nl2bash repository).

The Python source is shallowly embedded as pure Lean functions.  Mutable
tree surgery (parent / left-sibling / right-sibling pointers) is modelled
by ordered child lists: the specification states that sibling pointers are
a cache over the ordered child list and never an independent source of
truth, so a pure tree with derived sibling relations is a faithful model.
Python exceptions become an error sum type; printed diagnostics become an
explicit log; the process-wide grammar singleton becomes an explicit
Grammar argument, as the specification directs.

The helper module normalizer_node.py, the grammar table and bash.py are
not part of src/; functions taken from them are modelled from the spec and
carry a doc comment saying so.
-/

/-! ## Python string primitives -/

/-- Model of Python str.isdigit for ASCII words: nonempty and all digits. -/
def pyIsDigit (w : String) : Bool :=
  !w.isEmpty && w.toList.all Char.isDigit

/-- True when some character of the word is a digit
(Python: any(c.isdigit() for c in word)). -/
def anyDigit (w : String) : Bool :=
  w.toList.any Char.isDigit

/-- Model of Python str.replace on character lists: replaces the
non-overlapping occurrences of a nonempty pattern, scanning left to right.
The first argument is remaining skip length from a previous match. -/
def replGo (pat rep : List Char) : Nat → List Char → List Char
  | _, [] => []
  | Nat.succ k, _ :: cs => replGo pat rep k cs
  | 0, c :: cs =>
    if pat ≠ [] ∧ pat.isPrefixOf (c :: cs) then
      rep ++ replGo pat rep (pat.length - 1) cs
    else
      c :: replGo pat rep 0 cs

/-- Python cmd.replace(pat, rep) (all non-overlapping occurrences,
left to right). -/
def pyReplace (s pat rep : String) : String :=
  ⟨replGo pat.toList rep.toList 0 s.toList⟩

/-- True when pat occurs as a contiguous substring of s
(Python: pat in s). -/
def containsSub (pat s : List Char) : Bool :=
  match s with
  | [] => pat.isEmpty
  | _ :: cs => pat.isPrefixOf s || containsSub pat cs

/-- String-level substring test. -/
def pyIn (pat s : String) : Bool :=
  containsSub pat.toList s.toList

/-- Model of Python str.split(sep) for a nonempty separator: returns the
list of parts between non-overlapping occurrences of sep. acc carries the
current part, reversed. -/
def splitGo (sep : List Char) (acc : List Char) : List Char → Nat → List (List Char)
  | [], _ => [acc.reverse]
  | _ :: cs, Nat.succ k => splitGo sep acc cs k
  | c :: cs, 0 =>
    if sep ≠ [] ∧ sep.isPrefixOf (c :: cs) then
      acc.reverse :: splitGo sep [] cs (sep.length - 1)
    else
      splitGo sep (acc ++ [c]) cs 0

/-- Python s.split(sep), sep nonempty. -/
def pySplit (s sep : String) : List String :=
  (splitGo sep.toList [] s.toList 0).map fun l => ⟨l⟩

/-- Characters stripped by Python str.strip(). -/
def pyIsSpace (c : Char) : Bool :=
  c = ' ' || c = '\t' || c = '\n' || c = '\r' || c = '\x0b' || c = '\x0c'

/-- Python s.strip(). -/
def pyStrip (s : String) : String :=
  ⟨((s.toList.dropWhile pyIsSpace).reverse.dropWhile pyIsSpace).reverse⟩

/-- Python s.startswith(p). -/
def pyStartsWith (s p : String) : Bool :=
  p.toList.isPrefixOf s.toList

/-- Regex-sub of an anchored literal prefix: re.sub with a pattern that
matches the literal p at the start of the string, replaced by r. -/
def subPrefix (s p r : String) : String :=
  if pyStartsWith s p then r ++ ⟨s.toList.drop p.toList.length⟩ else s

/-- Python character class backslash-w without re.UNICODE:
ASCII letters, digits and underscore. -/
def isWordChar (c : Char) : Bool :=
  (c ≥ 'a' && c ≤ 'z') || (c ≥ 'A' && c ≤ 'Z') || c.isDigit || c = '_'

/-! ## Error model

Python exceptions raised by the normalizer.  sys.exit is modelled by the
distinct outcome procExit: it terminates the whole process and is not an
exception the batch driver can catch. -/

inductive PyErr : Type where
  | assertionError (msg : String)
  | attributeError (msg : String)
  | valueError (msg : String)
  | typeError (msg : String)
  | indexError (msg : String)
  | procExit
  | fuel
deriving DecidableEq, Repr

/-- Exception kinds caught by normalize_ast (normalizer.py lines 762-770):
ValueError, AttributeError and AssertionError make normalize_ast return
None for this one command, so batch processing continues.  Everything
else, in particular procExit (sys.exit), escapes. -/
def normalizeAstCatches : PyErr → Bool
  | .valueError _ => true
  | .attributeError _ => true
  | .assertionError _ => true
  | _ => false

/-! ## Canonical tree nodes

Modelled from the spec (section 3, Data Model): a tagged node with a kind,
a canonical value, an optional argument type, an associativity (meaningful
for UnaryLogicOp only; 0 = LEFT, 1 = RIGHT), and an ordered child list.
nid is a unique node identity standing in for the Python object identity
that the resolver uses when it revisits deferred operator nodes; sibling
and parent pointers are derived from the child lists, as the spec says
they are a cache over them. -/

inductive RNode : Type where
  | mk (kind value argType : String) (assoc nid : Nat) (children : List RNode)

def RNode.kind : RNode → String | .mk k _ _ _ _ _ => k
def RNode.value : RNode → String | .mk _ v _ _ _ _ => v
def RNode.argType : RNode → String | .mk _ _ t _ _ _ => t
def RNode.assoc : RNode → Nat | .mk _ _ _ a _ _ => a
def RNode.nid : RNode → Nat | .mk _ _ _ _ i _ => i
def RNode.children : RNode → List RNode | .mk _ _ _ _ _ cs => cs

/-- Replace the child list of a node. -/
def RNode.withChildren : RNode → List RNode → RNode
  | .mk k v t a i _, cs => .mk k v t a i cs

/-- Append one child (Node.addChild appends at the right end). -/
def RNode.addChild (n c : RNode) : RNode :=
  n.withChildren (n.children ++ [c])

/-- Overwrite the associativity field (adjust_unary_operators mutates
node.associate in place at normalizer.py line 299). -/
def RNode.setAssoc : RNode → Nat → RNode
  | .mk k v t _ i cs, a => .mk k v t a i cs

/-- Overwrite the value field (normalize_command appends an embedded
command delimiter to attach_point.value, lines 482-483 and 494). -/
def RNode.setValue : RNode → String → RNode
  | .mk k _ t a i cs, v => .mk k v t a i cs

/-- Associativity constants of UnaryLogicOpNode.  Modelled from the spec:
associativity is Left or Right. -/
def ULEFT : Nat := 0

def URIGHT : Nat := 1

/-- Unary operator lexicons.  Modelled from the spec: right-associative
unary logic operators adopt their right sibling (logical NOT), the
left-associative ones their left sibling; the source imports the two sets
from normalizer_node.py, which is not under src/. -/
def right_associate_unary_logic_operators : List String := ["!", "-not"]

/-- Left-associative unary operator lexicon; modelled from the spec. -/
def left_associate_unary_logic_operators : List String := ["-prune"]

/-- Associativity assigned by the UnaryLogicOpNode constructor; modelled
from the spec (only UnaryLogicOp carries associativity, determined by the
operator spelling). -/
def unaryAssocOf (w : String) : Nat :=
  if w ∈ right_associate_unary_logic_operators then URIGHT else ULEFT

/-- Binary logic operator lexicon (normalizer.py lines 25-32). -/
def binary_logic_operators : List String :=
  ["-and", "-or", "||", "&&", "-o", "-a"]

/-! ## Argument type classifier (normalizer.py lines 37-64, type_check) -/

/-- Heuristic argument-type classifier.  The Python function receives a
parse-tree node and reads node.word and node.pos; the embedding takes the
word and the source span directly.  possible_types is the collection the
Python membership tests run over (dict keys or a set).  The warning print
in the Unknown fallthrough is a stdout diagnostic with no control effect
and is not part of the returned value. -/
def type_check (word : String) (pos : Int × Int) (possible_types : List String) : String :=
  if word = "+" ∨ word = ";" ∨ word = "\x7b\x7d" then "ReservedWord"
  else if pyIsDigit word ∧ "Number" ∈ possible_types then "Number"
  else if anyDigit word ∧ (word.toList.getLast? ∈ [some 'k', some 'M', some 'G', some 'T', some 'P'])
      ∧ "Size" ∈ possible_types then "Size"
  else if anyDigit word ∧ (word.toList.getLast? ∈ [some 's', some 'm', some 'h', some 'd', some 'w'])
      ∧ "Time" ∈ possible_types then "Time"
  else if "Permission" ∈ possible_types ∧ (anyDigit word ∨ pyIn "=" word) then "Permission"
  else if "Pattern" ∈ possible_types ∧ (word.length : Int) = pos.2 - pos.1 - 2 then "Pattern"
  else if "File" ∈ possible_types then "File"
  else if "Utility" ∈ possible_types then "Utility"
  else "Unknown"

/-! ## Pre-parse text normalization
(normalizer.py lines 90-133, special_command_normalization,
and lines 165-166 of normalize_ast) -/

/-- Non-overlapping matches of the pattern space t a r space wordchar
(re.findall with pattern tar_fix), as the matched substrings. -/
def findTarMatches : List Char → List (List Char)
  | ' ' :: 't' :: 'a' :: 'r' :: ' ' :: c :: rest =>
    if isWordChar c then
      [' ', 't', 'a', 'r', ' ', c] :: findTarMatches rest
    else
      findTarMatches ('t' :: 'a' :: 'r' :: ' ' :: c :: rest)
  | _ :: rest => findTarMatches rest
  | [] => []

/-- The tar fix block (lines 127-132): when the command starts with tar, a
space is prepended, every found occurrence of space-tar-space-wordchar has
its inner tar followed by a dash, and the result is stripped. -/
def tarFix (cmd : String) : String :=
  if pyStartsWith cmd "tar" then
    let cmd1 := " " ++ cmd
    let ms := findTarMatches cmd1.toList
    let cmd2 := ms.foldl
      (fun acc w =>
        pyReplace acc ⟨w⟩ (pyReplace ⟨w⟩ "tar " "tar -")) cmd1
    pyStrip cmd2
  else cmd

/-- special_command_normalization (lines 90-133).  Every step is a literal
Python str.replace, an anchored-prefix re.sub guarded by startswith, or
the tar fix.  Note the shell-character guards test for a literal backslash
before the dollar or hash sign while the regex they guard strips a bare
dollar-space or hash-space prefix, exactly as in the source. -/
def special_command_normalization (cmd0 : String) : String :=
  let c := pyReplace cmd0 "sudo" ""
  let c := pyReplace c "/usr/bin/find " "find "
  let c := pyReplace c "/bin/find " "find "
  let c := pyReplace c "/usr/bin/grep " "grep "
  let c := pyReplace c "/bin/rm " "rm "
  let c := pyReplace c "/bin/mv " "mv "
  let c := pyReplace c "/bin/echo " "echo "
  let c := pyReplace c "-i\x7b\x7d" "-I \x7b\x7d"
  let c := pyReplace c "-I\x7b\x7d" "-I \x7b\x7d"
  let c := pyReplace c "— " "-"
  let c := pyReplace c "—" "-"
  let c := pyReplace c "-о" "-o"
  let c := pyReplace c " [] " " \x7b\x7d "
  let c := if pyStartsWith c "\\$ " then subPrefix c "$ " "" else c
  let c := if pyStartsWith c "\\# " then subPrefix c "# " "" else c
  let c := if pyStartsWith c "\\$find " then subPrefix c "$find " "find " else c
  let c := if pyStartsWith c "\\#find " then subPrefix c "#find " "find " else c
  let c := pyReplace c "-\\(" "\\("
  let c := pyReplace c "-\\)" "\\)"
  let c := pyReplace c "\"\\)" " \\)"
  let c := pyReplace c "‘" "\x27"
  let c := pyReplace c "’" "\x27"
  tarFix c

/-- The text pipeline of normalize_ast before parsing (lines 165-166):
newlines become spaces, the command is stripped, then
special_command_normalization runs. -/
def normalizePreprocess (cmd : String) : String :=
  special_command_normalization (pyStrip (pyReplace cmd "\n" " "))

/-! ## Structural pruner (normalizer.py lines 775-796, prune_ast) -/

mutual
/-- prune_ast_fun on one node: children that are Argument nodes not typed
ReservedWord are removed (with their whole subtree, since removal skips
the recursive call); the other children are pruned recursively.  The
sibling relinking of the source maintains the sibling cache, which this
model derives from child order. -/
def pruneN : RNode → RNode
  | .mk k v t a i cs => .mk k v t a i (pruneL cs)

/-- prune_ast_fun over a child list. -/
def pruneL : List RNode → List RNode
  | [] => []
  | c :: cs =>
    if c.kind = "argument" ∧ c.argType ≠ "ReservedWord" then pruneL cs
    else pruneN c :: pruneL cs
end

/-- prune_ast (lines 775-796): None maps to None; otherwise the source
deep-copies the input and prunes the copy, so the input tree is never
mutated — in the pure model the deep copy is the identity embedding. -/
def prune_ast : Option RNode → Option RNode
  | none => none
  | some n => some (pruneN n)

/-! ## Grammar lookup

Modelled from the spec (section 6, External Interfaces): the command
grammar is a consumed read-only dependency giving the ordered positional
argument slots of a head command, the expected argument type of a flag,
and the long-option test.  The source reaches it through the process-wide
ManPageLookUp singleton and bash.is_double_option; the spec directs that
it be an explicit dependency instead. -/

structure ArgSlot : Type where
  argType : String
  isList : Bool
  filled : Bool
deriving DecidableEq, Repr

structure ArgStatus : Type where
  nonOptional : List ArgSlot
  optional : List ArgSlot
deriving DecidableEq, Repr

structure Grammar : Type where
  get_arg_types : String → ArgStatus
  get_flag_arg_type : String → String → Option String
  is_double_option : String → Bool

/-! ## Tree access by path

The Python code navigates by object reference; the pure model addresses a
node inside a tree by the list of child indices from the root. -/

def getAtPath : RNode → List Nat → Option RNode
  | n, [] => some n
  | n, i :: p =>
    match n.children.get? i with
    | some c => getAtPath c p
    | none => none

/-- Replace the node at a path (used to write back a modified subtree). -/
def setAtPath : RNode → List Nat → RNode → Option RNode
  | _, [], m => some m
  | n, i :: p, m =>
    match n.children.get? i with
    | some c =>
      match setAtPath c p m with
      | some c2 => some (n.withChildren (n.children.set i c2))
      | none => none
    | none => none

/-- Append a child under the node at a path (attach_to_tree: the new node
becomes the rightmost child; its sibling links are derived from child
order).  Returns the updated tree and the index of the new child. -/
def attachAtPath (tree : RNode) (p : List Nat) (c : RNode) : Option (RNode × Nat) :=
  match getAtPath tree p with
  | some tgt =>
    match setAtPath tree p (tgt.addChild c) with
    | some t2 => some (t2, tgt.children.length)
    | none => none
  | none => none

/-- Nodes along a path, root first (for parent walks). -/
def nodesAlong : RNode → List Nat → List RNode
  | n, [] => [n]
  | n, i :: p =>
    match n.children.get? i with
    | some c => n :: nodesAlong c p
    | none => [n]

/-- Node.getHeadCommand, modelled from the spec glossary: the head command
that owns an attachment point, found by walking the parent chain from the
node itself upward until a node of kind headcommand appears.  none when no
head command is above, in which case the Python call chain dereferences
None and raises AttributeError. -/
def getHeadCommandOn (tree : RNode) (p : List Nat) : Option RNode :=
  ((nodesAlong tree p).reverse.find? fun n => n.kind = "headcommand")

/-! ## Token codec: serialization
(normalizer.py lines 842-952, to_tokens / to_tokens_fun) -/

/-- Node.symbol, modelled from the spec token-stream grammar consumed by
list_to_ast: the node kind joined to the value with an underscore. -/
def nodeSymbol (n : RNode) : String :=
  n.kind ++ "_" ++ n.value

/-- Stable insertion into a list of (value, tokens) pairs sorted by value
(Python sorted is stable; the new element goes after existing elements of
equal value). -/
def insertByValue (x : String × List String) :
    List (String × List String) → List (String × List String)
  | [] => [x]
  | y :: ys => if y.1 ≤ x.1 then y :: insertByValue x ys else x :: y :: ys

/-- Python sorted(children, key value) on per-child serializations:
serialization of one child never depends on its siblings, so sorting the
children before serializing equals sorting the (value, tokens) pairs. -/
def sortByValue (ps : List (String × List String)) : List (String × List String) :=
  ps.foldl (fun acc x => insertByValue x acc) []

mutual
/-- to_tokens_fun (lines 852-950).  The flag argument order is
loose_constraints, ignore_flag_order, arg_type_only, with_arg_type.  The
only try/except in the source is around the Root assertion and returns an
empty token list; every other failed assertion, and the two-element unpack
of a flag value split on the double colon, raise.  The source loops
"children up to the last, each followed by the separator, then the last
child" are rendered by to_tokens_join; indexing an empty child list raises
IndexError exactly where the source would. -/
def to_tokens_fun (lc ifo ato wat : Bool) : RNode → Except PyErr (List String)
  | .mk k v t a _ cs =>
    if k = "root" then
      if ¬ (lc = true ∨ cs.length = 1) then .ok []
      else if lc then to_tokens_list lc ifo ato wat cs
      else
        match cs with
        | c :: _ => to_tokens_fun lc ifo ato wat c
        | [] => .error (.indexError "root children")
    else if k = "pipeline" then
      if ¬ (lc = true ∨ cs.length > 1) then .error (.assertionError "pipeline arity")
      else if lc ∧ cs.length < 1 then .ok ["|"]
      else if lc ∧ cs.length = 1 then
        match cs with
        | c :: _ => to_tokens_fun lc ifo ato wat c
        | [] => .error (.indexError "pipeline child")
      else to_tokens_join lc ifo ato wat cs "|"
    else if k = "commandsubstitution" then
      if ¬ (lc = true ∨ cs.length = 1) then .error (.assertionError "commandsubstitution arity")
      else if lc ∧ cs.length < 1 then .ok ["$(", ")"]
      else
        match cs with
        | c :: _ => do
          let ts ← to_tokens_fun lc ifo ato wat c
          .ok ("$(" :: ts ++ [")"])
        | [] => .error (.indexError "commandsubstitution child")
    else if k = "processsubstitution" then
      if ¬ (lc = true ∨ cs.length = 1) then .error (.assertionError "processsubstitution arity")
      else if lc ∧ cs.length < 1 then .ok [v ++ "(", ")"]
      else
        match cs with
        | c :: _ => do
          let ts ← to_tokens_fun lc ifo ato wat c
          .ok ((v ++ "(") :: ts ++ [")"])
        | [] => .error (.indexError "processsubstitution child")
    else if k = "headcommand" then do
      let ps ← to_tokens_each lc ifo ato wat cs
      let ordered := if ifo then sortByValue ps else ps
      .ok (v :: (ordered.map Prod.snd).flatten)
    else if k = "flag" then
      if pyIn "::" v then
        match pySplit v "::" with
        | [val, op] => do
          let ts ← to_tokens_list lc ifo ato wat cs
          .ok (val :: ts ++ [if op = ";" then "\\;" else op])
        | _ => .error (.valueError "too many values to unpack")
      else do
        let ts ← to_tokens_list lc ifo ato wat cs
        .ok (v :: ts)
    else if k = "binarylogicop" then
      if ¬ (lc = true ∨ cs.length > 1) then .error (.assertionError "binarylogicop arity")
      else if lc ∧ cs.length < 2 then to_tokens_list lc ifo ato wat cs
      else do
        let ts ← to_tokens_join lc ifo ato wat cs v
        .ok ("\\(" :: ts ++ ["\\)"])
    else if k = "unarylogicop" then
      if ¬ (lc = true ∨ a = ULEFT ∨ cs.length = 1) then .error (.assertionError "unarylogicop arity")
      else if lc ∧ cs.length < 1 then .ok [v]
      else if a = URIGHT then
        match cs with
        | c :: _ => do
          let ts ← to_tokens_fun lc ifo ato wat c
          .ok (v :: ts)
        | [] => .error (.indexError "unarylogicop child")
      else
        match cs with
        | c :: _ => do
          let ts ← to_tokens_fun lc ifo ato wat c
          .ok (ts ++ [v])
        | [] => .ok [v]
    else if k = "argument" then
      if ¬ (lc = true ∨ cs.length = 0) then .error (.assertionError "argument arity")
      else do
        let base :=
          if wat then [nodeSymbol (.mk k v t a 0 cs)]
          else if ato ∧ t ≠ "ReservedWord" then
            if lc ∧ t = "" then ["Unknown"] else [t]
          else [v]
        if lc then do
          let ts ← to_tokens_list lc ifo ato wat cs
          .ok (base ++ ts)
        else .ok base
    else .ok []

/-- Concatenated serialization of a child list. -/
def to_tokens_list (lc ifo ato wat : Bool) : List RNode → Except PyErr (List String)
  | [] => .ok []
  | c :: cs => do
    let ts ← to_tokens_fun lc ifo ato wat c
    let rest ← to_tokens_list lc ifo ato wat cs
    .ok (ts ++ rest)

/-- Per-child serialization keeping each child value with its own token
run (for the optional stable sort of head-command children). -/
def to_tokens_each (lc ifo ato wat : Bool) :
    List RNode → Except PyErr (List (String × List String))
  | [] => .ok []
  | c :: cs => do
    let ts ← to_tokens_fun lc ifo ato wat c
    let rest ← to_tokens_each lc ifo ato wat cs
    .ok ((c.value, ts) :: rest)

/-- Children joined by a separator token: every child except the last is
followed by the separator; an empty child list raises IndexError (the
source subscripts children[-1]). -/
def to_tokens_join (lc ifo ato wat : Bool) : List RNode → String → Except PyErr (List String)
  | [], _ => .error (.indexError "children of node")
  | [c], _ => to_tokens_fun lc ifo ato wat c
  | c :: c2 :: cs, sep => do
    let ts ← to_tokens_fun lc ifo ato wat c
    let rest ← to_tokens_join lc ifo ato wat (c2 :: cs) sep
    .ok (ts ++ (sep :: rest))
end

/-- to_tokens (lines 842-952): a missing tree serializes to the empty
token list, otherwise to_tokens_fun runs on the root. -/
def to_tokens (n : Option RNode) (lc ifo ato wat : Bool) : Except PyErr (List String) :=
  match n with
  | none => .ok []
  | some nd => to_tokens_fun lc ifo ato wat nd

/-! ## Token codec: deserialization
(normalizer.py lines 799-839, list_to_ast) -/

/-- Split at the first occurrence of sep only
(Python symbol.split(sep, 1)). -/
def split1Go (sep : List Char) (acc : List Char) : List Char → Option (List Char × List Char)
  | [] => none
  | c :: cs =>
    if sep ≠ [] ∧ sep.isPrefixOf (c :: cs) then
      some (acc.reverse, (c :: cs).drop sep.length)
    else split1Go sep (acc ++ [c]) cs

/-- Python s.split(sep, 1): one part when sep does not occur, two parts
otherwise. -/
def pySplit1 (s sep : String) : List String :=
  match split1Go sep.toList [] s.toList with
  | none => [s]
  | some (a, b) => [⟨a⟩, ⟨b⟩]

/-- Python str.lower (ASCII). -/
def pyLower (s : String) : String :=
  ⟨s.toList.map Char.toLower⟩

/-- The two pop markers consumed by list_to_ast (normalizer.py lines
22-23; in Python 2 the byte literals compare equal to the plain
strings). -/
def H_NO_EXPAND : String := "<H_NO_EXPAND>"

def V_NO_EXPAND : String := "<V_NO_EXPAND>"

/-- Loop body state of list_to_ast: the tree under construction, the
cursor (None once the walk has popped above the root), a fresh-id counter
and the diagnostic log. -/
structure L2AState : Type where
  tree : RNode
  cur : Option (List Nat)
  next : Nat
  log : List String

/-- list_to_ast token loop (lines 803-836).  Each non-marker token must
split into a kind and a value on the first underscore (otherwise the
two-variable unpack raises ValueError).  An argument token attached under
a flag derives its type from the grammar; attached under a head command
the source passes the bare value string to type_check, which dereferences
value.word and raises AttributeError; under anything else it logs a
warning and uses Unknown. -/
def listToAstLoop (g : Grammar) (st : L2AState) : List String → Except PyErr L2AState
  | [] => .ok st
  | sym :: rest =>
    match st.cur with
    | none => .ok st
    | some p =>
      if sym = V_NO_EXPAND ∨ sym = H_NO_EXPAND then
        let cur2 := if p = [] then none else some p.dropLast
        listToAstLoop g { st with cur := cur2 } rest
      else
        match pySplit1 sym "_" with
        | [kindRaw, value] =>
          let kind := pyLower kindRaw
          let curNode := getAtPath st.tree p
          match curNode with
          | none => .error (.attributeError "cursor path invalid")
          | some cn => do
            let build : Except PyErr (RNode × List String) :=
              if kind = "argument" then
                if cn.kind = "flag" then
                  match getHeadCommandOn st.tree p with
                  | none => .error (.attributeError "NoneType has no attribute value")
                  | some hc =>
                    let argType := (g.get_flag_arg_type hc.value cn.value).getD ""
                    .ok (.mk "argument" value argType 0 st.next [], st.log)
                else if cn.kind = "headcommand" then
                  .error (.attributeError "str object has no attribute word")
                else
                  .ok (.mk "argument" value "Unknown" 0 st.next [],
                       st.log ++ ["Warning: to_ast unrecognized argument attachment point"])
              else if kind = "flag" then .ok (.mk "flag" value "" 0 st.next [], st.log)
              else if kind = "headcommand" then .ok (.mk "headcommand" value "" 0 st.next [], st.log)
              else if kind = "unarylogicop" then
                .ok (.mk "unarylogicop" value "" (unaryAssocOf value) st.next [], st.log)
              else .ok (.mk kind value "" 0 st.next [], st.log)
            let (node, log2) ← build
            match attachAtPath st.tree p node with
            | none => .error (.attributeError "attach path invalid")
            | some (t2, idx) =>
              listToAstLoop g { tree := t2, cur := some (p ++ [idx]), next := st.next + 1, log := log2 } rest
        | _ => .error (.valueError "need more than 1 value to unpack")

/-- list_to_ast (lines 799-839), dfs order: build a root node, then run
the token loop from the second token on (the first token is skipped by
the range starting at 1).  The root is returned even when the cursor has
popped above it. -/
def list_to_ast (g : Grammar) (tokens : List String) : Except PyErr RNode := do
  let root : RNode := .mk "root" "root" "" 0 0 []
  let st ← listToAstLoop g { tree := root, cur := some [], next := 1, log := [] } (tokens.drop 1)
  .ok st.tree

/-! ## Logic-operator resolver
(normalizer.py lines 555-627 inside normalize_command, with
organize_buffer lines 264-283, adjust_unary_operators lines 285-336,
adjust_binary_operators lines 338-379, pop_stack_content lines 559-578)

The Python code walks the sibling chain of the head command with an
explicit stack of references into the child list; pop_stack_content
slices the run between a matching parenthesis pair out of the child list
and organize_buffer rebuilds it into a single subtree.  The pure model
keeps the same data as a stack of open frames (the content gathered since
each open parenthesis, innermost first, each frame reversed) plus the
depth-zero output, and slices become explicit lists.  Deferred operators
are remembered by node identity (the source keeps Python object
references) in the unprocessed queues of the resolver state. -/

structure RSt : Type where
  log : List String
  next : Nat
  uQ : List Nat
  bQ : List Nat
deriving Repr

/-- The unary traversal of organize_buffer (first while loop, lines
265-269, calling adjust_unary_operators): the chain between an opening
parenthesis on the left and a closing parenthesis on the right (a real
one, or the one synthesized by pop_stack_content for a missing close).
acc is the already-visited prefix, reversed.  A right-associative
operator whose right sibling is the closing delimiter flips to LEFT and
is deferred (lines 297-301); one whose right sibling opens a bracket is
deferred unchanged (lines 294-296); otherwise it adopts its right
sibling.  A left-associative operator at the left delimiter, or after a
binary operator, is skipped silently (lines 318-321); after a closing
delimiter it is deferred (lines 315-317); otherwise it adopts its left
sibling.  The parent of every chain member is the head command here, so
the single-child postlude of lines 333-336 cannot fire and is handled in
the deferred-queue pass.  Every step consumes at least one chain element,
so the fuel argument (one more than the chain length at the call sites)
can never run out; it only makes the recursion structural. -/
def obUnary (st : RSt) (acc : List RNode) : Nat → (chain : List RNode) → Except PyErr (RSt × List RNode)
  | _, [] => .ok (st, acc.reverse)
  | 0, _ :: _ => .error .fuel
  | Nat.succ fl, n :: rest =>
    if n.kind = "unarylogicop" then
      if n.assoc = URIGHT then
        match rest with
        | [] =>
          .ok ({ st with uQ := st.uQ ++ [n.nid] }, (n.setAssoc ULEFT :: acc).reverse)
        | r :: rest2 =>
          if r.value = "(" then
            obUnary { st with uQ := st.uQ ++ [n.nid] } (n :: acc) fl (r :: rest2)
          else if r.value = ")" then
            obUnary { st with uQ := st.uQ ++ [n.nid] } (n.setAssoc ULEFT :: acc) fl (r :: rest2)
          else obUnary st (n.addChild r :: acc) fl rest2
      else if n.assoc = ULEFT then
        match acc with
        | [] => obUnary st (n :: acc) fl rest
        | l :: acc2 =>
          if l.value = ")" then obUnary { st with uQ := st.uQ ++ [n.nid] } (n :: acc) fl rest
          else if l.kind = "binarylogicop" ∨ l.value = "(" then obUnary st (n :: acc) fl rest
          else obUnary st (n.addChild l :: acc2) fl rest
      else .error (.attributeError "Cannot decide unary operator assocation")
    else obUnary st (n :: acc) fl rest

/-- The binary traversal of organize_buffer (second while loop, lines
270-274, calling adjust_binary_operators).  Within a slice both siblings
always exist (the parenthesis delimiters bound the chain), so the
missing-sibling AttributeError of lines 344-346 cannot fire here; a
delimiter as sibling either defers the operator (right sibling opens, or
left sibling closes, lines 348-351) or fails the assertions of lines
353-354.  Adjacent runs of the same operator value are flattened (lines
363-368). -/
def obBinary (st : RSt) (acc : List RNode) : List RNode → Except PyErr (RSt × List RNode)
  | [] => .ok (st, acc.reverse)
  | n :: rest =>
    if n.kind = "binarylogicop" then
      let lsbVal := match acc with | [] => "(" | l :: _ => l.value
      let rsbVal := match rest with | [] => ")" | r :: _ => r.value
      if rsbVal = "(" ∨ lsbVal = ")" then
        obBinary { st with bQ := st.bQ ++ [n.nid] } (n :: acc) rest
      else if rsbVal = ")" then .error (.assertionError "rsb is a closing parenthesis")
      else if lsbVal = "(" then .error (.assertionError "lsb is an opening parenthesis")
      else
        match acc, rest with
        | l :: acc2, r :: rest2 =>
          let n2 :=
            if l.kind = "binarylogicop" ∧ l.value = n.value then
              n.withChildren (n.children ++ l.children ++ [r])
            else n.withChildren (n.children ++ [l, r])
          obBinary st (n2 :: acc2) rest2
        | _, _ => .error (.attributeError "binary logic operator must have both siblings")
    else obBinary st (n :: acc) rest

/-- organize_buffer (lines 264-283) on the slice between a parenthesis
pair: run the unary traversal, then the binary traversal; a single
remaining node is returned as is, anything else (several nodes, or an
empty slice) is wrapped in a fresh implicit BinaryLogicOp -and node. -/
def organize_buffer (st : RSt) (slice0 : List RNode) : Except PyErr (RSt × RNode) := do
  let (st1, s1) ← obUnary st [] (slice0.length + 1) slice0
  let (st2, s2) ← obBinary st1 [] s1
  match s2 with
  | [x] => .ok (st2, x)
  | xs => .ok ({ st2 with next := st2.next + 1 }, .mk "binarylogicop" "-and" "" ULEFT st2.next xs)

/-- The parenthesis scan over the head-command children (lines 580-602).
frames holds the content gathered since each currently-open parenthesis
(innermost first, reversed); bottom is the depth-zero output, reversed.
An opening parenthesis pushes a frame; a closing one at depth zero is
detached and dropped with no diagnostic (lines 589-591); a closing one at
positive depth resolves the top frame through organize_buffer and the
result replaces the bracketed run (pop_stack_content with
substituteParentheses).  Other children join the top frame, or the output
with top-level unary and binary operators recorded as unprocessed (lines
594-601). -/
def paren_scan (st : RSt) (frames : List (List RNode)) (bottom : List RNode) :
    List RNode → Except PyErr (RSt × List (List RNode) × List RNode)
  | [] => .ok (st, frames, bottom)
  | c :: cs =>
    if c.value = "(" then paren_scan st ([] :: frames) bottom cs
    else if c.value = ")" then
      match frames with
      | [] => paren_scan st [] bottom cs
      | f :: fs => do
        let (st2, nc) ← organize_buffer st f.reverse
        match fs with
        | [] => paren_scan st2 [] (nc :: bottom) cs
        | g :: gs => paren_scan st2 ((nc :: g) :: gs) bottom cs
    else
      match frames with
      | f :: fs => paren_scan st ((c :: f) :: fs) bottom cs
      | [] =>
        let st2 :=
          if c.kind = "unarylogicop" then { st with uQ := st.uQ ++ [c.nid] }
          else if c.kind = "binarylogicop" then { st with bQ := st.bQ ++ [c.nid] }
          else st
        paren_scan st2 [] (c :: bottom) cs

/-- End-of-scan repair of missing closing parentheses (lines 604-609):
while open frames remain, pop_stack_content runs with a synthesized
closing parenthesis and no diagnostic; organize_buffer sees the synthetic
delimiter exactly as a real one; the result joins the enclosing frame or
the depth-zero output.  Returns the final depth-zero child list. -/
def closeGo (st : RSt) (bottom : List RNode) (f : List RNode) :
    List (List RNode) → Except PyErr (RSt × List RNode)
  | [] => do
    let (st2, nc) ← organize_buffer st f.reverse
    .ok (st2, (nc :: bottom).reverse)
  | g :: gs => do
    let (st2, nc) ← organize_buffer st f.reverse
    closeGo st2 bottom (nc :: g) gs

/-- Entry of the end-of-scan repair: nothing open returns the depth-zero
output; otherwise the innermost open frame starts the unwinding. -/
def close_open_parens (st : RSt) (bottom : List RNode) :
    (frames : List (List RNode)) → Except PyErr (RSt × List RNode)
  | [] => .ok (st, bottom.reverse)
  | f :: fs => closeGo st bottom f fs

/-- Split a chain at the node carrying a given identity: returns the
reversed prefix, the node, and the suffix. -/
def splitAtNid (nid : Nat) (preRev : List RNode) :
    List RNode → Option (List RNode × RNode × List RNode)
  | [] => none
  | n :: rest =>
    if n.nid = nid then some (preRev, n, rest)
    else splitAtNid nid (n :: preRev) rest

/-- adjust_unary_operators (lines 285-331) applied to a deferred operator
located inside a chain with no parenthesis delimiters (the final pass of
lines 611-612, where the operator may sit anywhere in the reorganized
forest).  A missing sibling only logs a warning (lines 288-293 and
309-314).  The returned flag records whether an adoption happened, which
gates the single-child postlude at the caller. -/
def adjust_unary_at (nid : Nat) (st : RSt) (chain : List RNode) :
    Except PyErr (RSt × List RNode × Bool) :=
  match splitAtNid nid [] chain with
  | none => .ok (st, chain, false)
  | some (preRev, n, post) =>
    if n.assoc = URIGHT then
      match post with
      | [] =>
        .ok ({ st with log := st.log ++ ["Warning: unary logic operator without a right sibling."] },
             preRev.reverse ++ n :: post, false)
      | r :: post2 =>
        if r.value = "(" then
          .ok ({ st with uQ := st.uQ ++ [n.nid] }, preRev.reverse ++ n :: post, false)
        else if r.value = ")" then
          .ok ({ st with uQ := st.uQ ++ [n.nid] }, preRev.reverse ++ n.setAssoc ULEFT :: post, false)
        else .ok (st, preRev.reverse ++ n.addChild r :: post2, true)
    else if n.assoc = ULEFT then
      match preRev with
      | [] =>
        .ok ({ st with log := st.log ++ ["Warning: unary logic operator without a left sibling."] },
             n :: post, false)
      | l :: preRev2 =>
        if l.value = ")" then
          .ok ({ st with uQ := st.uQ ++ [n.nid] }, preRev.reverse ++ n :: post, false)
        else if l.kind = "binarylogicop" ∨ l.value = "(" then
          .ok (st, preRev.reverse ++ n :: post, false)
        else .ok (st, preRev2.reverse ++ n.addChild l :: post, true)
    else .error (.attributeError "Cannot decide unary operator assocation")

/-- adjust_binary_operators (lines 338-379) applied to a deferred
operator located inside a chain with no parenthesis delimiters (the final
pass of lines 614-615).  A missing sibling raises AttributeError (lines
344-346). -/
def adjust_binary_at (nid : Nat) (st : RSt) (chain : List RNode) :
    Except PyErr (RSt × List RNode × Bool) :=
  match splitAtNid nid [] chain with
  | none => .ok (st, chain, false)
  | some (preRev, n, post) =>
    match preRev, post with
    | l :: preRev2, r :: post2 =>
      if r.value = "(" ∨ l.value = ")" then
        .ok ({ st with bQ := st.bQ ++ [n.nid] }, preRev.reverse ++ n :: post, false)
      else if r.value = ")" then .error (.assertionError "rsb is a closing parenthesis")
      else if l.value = "(" then .error (.assertionError "lsb is an opening parenthesis")
      else
        let n2 :=
          if l.kind = "binarylogicop" ∧ l.value = n.value then
            n.withChildren (n.children ++ l.children ++ [r])
          else n.withChildren (n.children ++ [l, r])
        .ok (st, preRev2.reverse ++ n2 :: post2, true)
    | _, _ =>
      .error (.attributeError "binary logic operator must have both left and right siblings")

/-- Dispatch between the two chain adjusters. -/
def adjustAt (isU : Bool) (nid : Nat) (st : RSt) (chain : List RNode) :
    Except PyErr (RSt × List RNode × Bool) :=
  if isU then adjust_unary_at nid st chain else adjust_binary_at nid st chain

mutual
/-- Locate the parent chain of a deferred operator inside a subtree and
run the chain adjuster there.  After an adoption, a parent BinaryLogicOp
-and node left with a single child is replaced by that child in its own
parent (the postlude of lines 333-336 and 374-379; the replacement
happens at this level because the source calls
node.grandparent().replaceChild(node.parent, node)). -/
def adjN (isU : Bool) (nid : Nat) (st : RSt) : RNode → Except PyErr (RSt × RNode × Bool)
  | .mk k v t a i cs =>
    if cs.any fun c => c.nid == nid then do
      let (st2, cs2, adopted) ← adjustAt isU nid st cs
      if adopted ∧ k = "binarylogicop" ∧ v = "-and" ∧ cs2.length = 1 then
        match cs2 with
        | [c] => .ok (st2, c, true)
        | _ => .ok (st2, .mk k v t a i cs2, true)
      else .ok (st2, .mk k v t a i cs2, true)
    else do
      let (st2, cs2, found) ← adjL isU nid st cs
      .ok (st2, .mk k v t a i cs2, found)

/-- Search a child list for the subtree holding the deferred operator. -/
def adjL (isU : Bool) (nid : Nat) (st : RSt) : List RNode → Except PyErr (RSt × List RNode × Bool)
  | [] => .ok (st, [], false)
  | c :: cs => do
    let (st2, c2, found) ← adjN isU nid st c
    if found then .ok (st2, c2 :: cs, true)
    else do
      let (st3, cs2, found2) ← adjL isU nid st2 cs
      .ok (st3, c2 :: cs2, found2)
end

/-- One deferred-operator adjustment over the head-command child forest.
When the operator is a direct child of the head command the chain is the
forest itself and the single-child postlude cannot fire (the parent is
the head command, not a binarylogicop). -/
def adjTop (isU : Bool) (nid : Nat) (st : RSt) (forest : List RNode) :
    Except PyErr (RSt × List RNode) :=
  if forest.any fun c => c.nid == nid then do
    let (st2, f2, _) ← adjustAt isU nid st forest
    .ok (st2, f2)
  else do
    let (st2, f2, _) ← adjL isU nid st forest
    .ok (st2, f2)

/-- The final passes over the unprocessed operator queues (lines
611-615).  Python iterates the list while adjustments may append to it;
the model processes the queue head first and lets adjusters append, which
is the same first-in first-out order.  Fuel bounds the iteration; the
source would loop forever in the same situation. -/
def run_unprocessed (isU : Bool) : Nat → RSt → List RNode → Except PyErr (RSt × List RNode)
  | 0, _, _ => .error .fuel
  | Nat.succ f, st, forest =>
    match if isU then st.uQ else st.bQ with
    | [] => .ok (st, forest)
    | nid :: rest => do
      let st1 := if isU then { st with uQ := rest } else { st with bQ := rest }
      let (st2, f2) ← adjTop isU nid st1 forest
      run_unprocessed isU f st2 f2

/-- The complete logic-operator resolution over a head-command child list
(lines 555-615): parenthesis scan, implicit closing of open parentheses,
then the deferred unary and binary passes.  The unprocessed queues start
empty for each command (lines 223-224). -/
def resolve_logic_ops (fuel : Nat) (st0 : RSt) (children : List RNode) :
    Except PyErr (RSt × List RNode) := do
  let st := { st0 with uQ := [], bQ := [] }
  let (st1, frames, bottomRev) ← paren_scan st [] [] children
  let (st2, forest) ← close_open_parens st1 bottomRev frames
  let (st3, f1) ← run_unprocessed true fuel st2 forest
  let (st4, f2) ← run_unprocessed false fuel st3 f1
  .ok (st4, f2)

/-- Omitted-argument recovery for find (lines 617-627): when the resolved
head command is find, has children but no argument child, an implicit
path argument dot typed File is inserted as the first child. -/
def recover_find_path (st : RSt) (headValue : String) (children : List RNode) :
    RSt × List RNode :=
  if headValue = "find" ∧ children.length > 0
      ∧ (children.filter fun c => c.kind == "argument").length < 1 then
    ({ st with next := st.next + 1 }, .mk "argument" "." "File" ULEFT st.next [] :: children)
  else (st, children)

/-- The tail of normalize_command after the token scan (lines 541-627):
no head command returns the tree unchanged (lines 543-544); more than one
head command prints an error and calls sys.exit(), terminating the whole
process (lines 546-550) — modelled as the uncatchable procExit outcome;
exactly one head command has its children resolved and, for find, the
implicit path inserted. -/
def finish_command (fuel : Nat) (st : RSt) (current : RNode) (headPaths : List (List Nat)) :
    Except PyErr (RSt × RNode) :=
  match headPaths with
  | [] => .ok (st, current)
  | [p] =>
    match getAtPath current p with
    | none => .ok (st, current)
    | some head => do
      let (st2, cs2) ← resolve_logic_ops fuel st head.children
      let (st3, cs3) := recover_find_path st2 head.value cs2
      match setAtPath current p (head.withChildren cs3) with
      | some t2 => .ok (st3, t2)
      | none => .ok (st3, current)
  | _ :: _ :: _ => .error .procExit

/-! ## Word normalization and scan-state helpers
(normalizer.py lines 154-216 closures of normalize_ast, plus the grammar
state helpers of normalize_command, lines 219-262) -/

/-- Numeric placeholder substituted for digit literals.  Modelled from the
spec (digit normalization replaces digits with the configured numeric
placeholder; the actual constant lives in the out-of-scope bash module). -/
def NUM_SYMBOL : String := "_NUM"

/-- Placeholder for long patterns containing spaces.  Modelled from the
spec; the constant lives in the out-of-scope bash module. -/
def LONG_PATTERN : String := "_LONG_PATTERN"

/-- Walk for digit-run substitution: the flag records whether the walk is
inside a digit run already replaced by the placeholder. -/
def normDigitsGo (inRun : Bool) : List Char → List Char
  | [] => []
  | c :: cs =>
    if c.isDigit then
      if inRun then normDigitsGo true cs
      else NUM_SYMBOL.toList ++ normDigitsGo true cs
    else c :: normDigitsGo false cs

/-- Substitution of the digit regular expression by the numeric
placeholder: every maximal run of digits becomes one placeholder.
Modelled from the spec (the regular expression lives in the out-of-scope
bash module). -/
def normDigitRuns (l : List Char) : List Char :=
  normDigitsGo false l

/-- Python s.endswith(p). -/
def pyEndsWith (s p : String) : Bool :=
  p.toList.isSuffixOf s.toList

/-- Python s[i] with negative-index wraparound; out of range raises
IndexError. -/
def pyCharAt (s : String) (i : Int) : Except PyErr Char :=
  let n : Int := s.length
  let j := if i < 0 then i + n else i
  if 0 ≤ j ∧ j < n then
    match s.toList.get? j.toNat with
    | some c => .ok c
    | none => .error (.indexError "string index out of range")
  else .error (.indexError "string index out of range")

/-- Python s[a:b] slicing (never raises; indices clamp). -/
def pySlice (s : String) (a b : Int) : String :=
  let n : Int := s.length
  let a2 := if a < 0 then max 0 (a + n) else min a n
  let b2 := if b < 0 then max 0 (b + n) else min b n
  ⟨(s.toList.take b2.toNat).drop a2.toNat⟩

/-- Raw parse-tree nodes of the external bashlex parser (spec section 6):
a syntactic kind, a literal word, child parts, a source offset pair, for
substitution kinds an inner command.  hasWord and hasParts model the
Python hasattr tests the source performs on these objects. -/
inductive BNode : Type where
  | mk (kind word : String) (hasWord : Bool) (parts : List BNode) (hasParts : Bool)
       (pos : Int × Int) (command : Option BNode)

def BNode.kind : BNode → String | .mk k _ _ _ _ _ _ => k
def BNode.word : BNode → String | .mk _ w _ _ _ _ _ => w
def BNode.hasWord : BNode → Bool | .mk _ _ h _ _ _ _ => h
def BNode.parts : BNode → List BNode | .mk _ _ _ ps _ _ _ => ps
def BNode.hasParts : BNode → Bool | .mk _ _ _ _ h _ _ => h
def BNode.pos : BNode → Int × Int | .mk _ _ _ _ _ p _ => p
def BNode.command : BNode → Option BNode | .mk _ _ _ _ _ _ c => c

/-- Copy of a word node with the word rewritten (the deepcopy-and-rewrite
of flag splitting, normalizer.py lines 399-400: the clone keeps the kind,
parts and source span of the original). -/
def BNode.withWord : BNode → String → BNode
  | .mk k _ h ps hp p c, w => .mk k w h ps hp p c

/-- Configuration flags of normalize_ast (line 154) together with the
command text the word-normalization closures read. -/
structure Cfg : Type where
  cmd : String
  normalize_digits : Bool
  normalize_long_pattern : Bool
  recover_quotation : Bool
  verbose : Bool

/-- with_quotation (lines 193-195): the character at the start offset or
the one before the end offset is a quote mark. -/
def with_quotation (cfg : Cfg) (pos : Int × Int) : Except PyErr Bool := do
  let c0 ← pyCharAt cfg.cmd pos.1
  let c1 ← pyCharAt cfg.cmd (pos.2 - 1)
  .ok (c0 = '"' ∨ c0 = '\x27' ∨ c1 = '"' ∨ c1 = '\x27')

/-- recover_quotation (lines 187-191): a quoted word keeps its original
source text, an unquoted one the parser word. -/
def recover_quotation_of (cfg : Cfg) (node : BNode) : Except PyErr String := do
  let wq ← with_quotation cfg node.pos
  if wq then .ok (pySlice cfg.cmd node.pos.1 node.pos.2) else .ok node.word

/-- normalize_word (lines 171-185).  Quotation recovery first; then, for
arguments not typed Permission: a word containing a space trips an
assertion that it be double-quoted (caught, printing a diagnostic only
when verbose) and becomes the long-pattern placeholder when that
normalization is on; digit normalization replaces digit runs by the
numeric placeholder.  Returns the word and any diagnostics. -/
def normalize_word (cfg : Cfg) (node : BNode) (kind arg_type : String) :
    Except PyErr (String × List String) := do
  let w0 ← if cfg.recover_quotation then recover_quotation_of cfg node else .ok node.word
  if kind = "argument" ∧ arg_type ≠ "Permission" then
    let (w1, lg) :=
      if pyIn " " w0 then
        let lg :=
          if pyStartsWith w0 "\"" ∧ pyEndsWith w0 "\"" then []
          else if cfg.verbose then ["Quotation Error: space inside word " ++ w0] else []
        ((if cfg.normalize_long_pattern then LONG_PATTERN else w0), lg)
      else (w0, [])
    let w2 := if cfg.normalize_digits then (⟨normDigitRuns w1.toList⟩ : String) else w1
    .ok (w2, lg)
  else .ok (w0, [])

/-- is_unary_logic_op (lines 66-71) on the word and the attachment-point
node (the parent argument of the source; within the scan it is always a
real node, so the Python truthiness test on it holds). -/
def is_unary_logic_op (w parentKind parentValue : String) : Bool :=
  if w = "!" then parentKind = "headcommand" ∧ parentValue = "find"
  else w ∈ right_associate_unary_logic_operators
    ∨ w ∈ left_associate_unary_logic_operators

/-- is_binary_logic_op (lines 73-88).  The source rewrites node.word from
-o to -or and -a to -and when the parent is a find head command; the model
returns the decision together with the possibly rewritten word. -/
def is_binary_logic_op (w parentKind parentValue : String) : Bool × String :=
  if w = "-o" then
    if parentKind = "headcommand" ∧ parentValue = "find" then (true, "-or") else (false, w)
  else if w = "-a" then
    if parentKind = "headcommand" ∧ parentValue = "find" then (true, "-and") else (false, w)
  else (decide (w ∈ binary_logic_operators), w)

/-- expecting (lines 226-237): some unfilled slot (list slots never fill)
of either slot list carries the asked argument type. -/
def expecting (ast : ArgStatus) (a_t : String) : Bool :=
  (ast.nonOptional.any fun sl => ¬(¬sl.isList ∧ sl.filled) ∧ sl.argType = a_t)
  || (ast.optional.any fun sl => ¬(¬sl.isList ∧ sl.filled) ∧ sl.argType = a_t)

/-- cmd_arg_type_check (lines 239-262).  Both collection loops of lines
241-250 iterate the non-optional slot list; the assert of line 252
requires an open slot; the type_check call of line 253 then passes the
bare word string, whose .word access raises AttributeError, so the
filled-slot marking and the return are unreachable: every call raises.
With no argument status at all the subscript of None raises TypeError. -/
def cmd_arg_type_check (ast : Option ArgStatus) : Except PyErr String :=
  match ast with
  | none => .error (.typeError "NoneType object is not subscriptable")
  | some a =>
    let keys := (a.nonOptional.filter fun sl => ¬(¬sl.isList ∧ sl.filled)).map (fun sl => sl.argType)
    if keys = [] then .error (.assertionError "len arg_types > 0")
    else .error (.attributeError "str object has no attribute word")

/-- Scan state of normalize_command: the tree under construction, the
attachment point (a path), the acceptable next node kinds, the acceptable
argument types, the grammar argument status of the head command, the
recorded head commands (as paths), and the threaded resolver state (log
and fresh-id counter). -/
structure ScanState : Type where
  tree : RNode
  apath : List Nat
  kinds : List String
  argTypes : Option (List String)
  argStatus : Option ArgStatus
  headPaths : List (List Nat)
  st : RSt

/-- The prefixes of a path, shortest first. -/
def prefixesAsc : List Nat → List (List Nat)
  | [] => [[]]
  | a :: p => [] :: (prefixesAsc p).map fun q => a :: q

/-- The prefixes of a path, longest first (the parent walk). -/
def prefixesDesc (p : List Nat) : List (List Nat) :=
  (prefixesAsc p).reverse

/-- Path of the head command owning the attachment point (ancestor-or-self
walk of Node.getHeadCommand, modelled from the spec glossary). -/
def headCommandPathOn (tree : RNode) (p : List Nat) : Option (List Nat) :=
  (prefixesDesc p).find? fun q =>
    match getAtPath tree q with
    | some n => n.kind = "headcommand"
    | none => false

/-- look_above (lines 417-419): the attachment point climbs back to the
head command and both flags and arguments are acceptable again. -/
def look_above (s : ScanState) : Except PyErr ScanState :=
  match headCommandPathOn s.tree s.apath with
  | some hp => .ok { s with apath := hp, kinds := ["flags", "arguments"], argTypes := none }
  | none => .error (.attributeError "NoneType object has no attribute")

/-- normalize_argument (lines 197-202): word normalization then an
Argument node attached at the attachment point. -/
def normalize_argument (cfg : Cfg) (tree : RNode) (cur : List Nat) (node : BNode)
    (arg_type : String) (rst : RSt) : Except PyErr (RSt × RNode) := do
  let (w, lg) ← normalize_word cfg node "argument" arg_type
  match attachAtPath tree cur (.mk "argument" w arg_type ULEFT rst.next []) with
  | some (t2, _) =>
    .ok ({ rst with next := rst.next + 1, log := rst.log ++ lg }, t2)
  | none => .error (.attributeError "invalid attach point")

/-- normalize_flag (lines 204-209). -/
def normalize_flag (cfg : Cfg) (tree : RNode) (cur : List Nat) (node : BNode) (rst : RSt) :
    Except PyErr (RSt × RNode) := do
  let (w, lg) ← normalize_word cfg node "flag" ""
  match attachAtPath tree cur (.mk "flag" w "" ULEFT rst.next []) with
  | some (t2, _) =>
    .ok ({ rst with next := rst.next + 1, log := rst.log ++ lg }, t2)
  | none => .error (.attributeError "invalid attach point")

/-- The clone-per-character loop of flag splitting (lines 397-402): each
option character yields a deepcopy of the original node with its word
rewritten to a dash and the character, attached in order. -/
def attachSplitFlags (cfg : Cfg) (tree : RNode) (cur : List Nat) (node : BNode) (rst : RSt) :
    List Char → Except PyErr (RSt × RNode)
  | [] => .ok (rst, tree)
  | c :: cs => do
    let (rst2, t2) ← normalize_flag cfg tree cur (node.withWord ("-" ++ String.mk [c])) rst
    attachSplitFlags cfg t2 cur node rst2 cs

/-- attach_flag (lines 381-415).  A long option, a logic-operator word, a
find attachment point or a short word attaches as a single Flag node;
otherwise a clustered short-option token is split into one Flag clone per
character.  Afterwards the grammar is asked (with the original, unsplit
word) whether the flag expects an argument; if so the attachment point
descends to the rightmost child just attached. -/
def attach_flag (cfg : Cfg) (g : Grammar) (s : ScanState) (child : BNode) :
    Except PyErr ScanState := do
  let ap ←
    match getAtPath s.tree s.apath with
    | some n => Except.ok n
    | none => Except.error (.attributeError "invalid attach point")
  let (rst1, t1) ←
    if g.is_double_option child.word ∨ is_unary_logic_op child.word ap.kind ap.value
        ∨ child.word ∈ binary_logic_operators ∨ ap.value = "find"
        ∨ child.word.length ≤ 1 then
      normalize_flag cfg s.tree s.apath child s.st
    else
      if ¬ pyStartsWith child.word "-" then
        Except.error (.assertionError "node.word.startswith dash")
      else
        let options := child.word.toList.drop 1
        if options.length = 1 then normalize_flag cfg s.tree s.apath child s.st
        else do
          let (rst2, t2) ← attachSplitFlags cfg s.tree s.apath child s.st options
          let splitMsg := String.mk options ++ " splitted into: "
            ++ String.join (options.map fun c => "-" ++ String.mk [c] ++ " ")
          if cfg.verbose then
            Except.ok ({ rst2 with log := rst2.log ++ [splitMsg] }, t2)
          else Except.ok (rst2, t2)
  let s1 := { s with tree := t1, st := rst1 }
  match getHeadCommandOn s1.tree s1.apath with
  | none => .error (.attributeError "NoneType object has no attribute value")
  | some h =>
    match g.get_flag_arg_type h.value child.word with
    | some t =>
      match getAtPath s1.tree s1.apath with
      | some apn =>
        .ok { s1 with apath := s1.apath ++ [apn.children.length - 1],
                      kinds := ["argument"], argTypes := some [t] }
      | none => .error (.attributeError "invalid attach point")
    | none => .ok s1

/-- Index of the first embedded-command delimiter (a part with a word
attribute reading a semicolon or a plus) in a part list. -/
def findDelimIdx : List BNode → Option Nat
  | [] => none
  | b :: bs =>
    if b.hasWord ∧ (b.word = ";" ∨ b.word = "+") then some 0
    else (findDelimIdx bs).map fun i => i + 1

/-! ## The main normalization pass
(normalizer.py: normalize, lines 629-727, and normalize_command,
lines 218-557).  The recursive dispatcher, the command scan loop, the
per-word scan step and the embedded-command recursion are mutually
recursive in the source; to keep the embedding executable by the kernel
they are rendered as one fuel-bounded interpreter over a call sum, with
one wrapper per source function.  The fuel only models the recursion
depth the Python call stack provides. -/

/-- One pending call of the normalization cluster: normalize, its
for-child loops, the pipeline child loop, normalize_command, the scan
loop over command parts, or one word step of that scan. -/
inductive NCall : Type where
  | norm (tree : RNode) (cur : List Nat) (node : BNode) (node_kind arg_type : String) (rst : RSt)
  | normList (tree : RNode) (cur : List Nat) (ps : List BNode) (rst : RSt)
  | pipes (tree : RNode) (cur : List Nat) (ps : List BNode) (rst : RSt)
  | cmd (tree : RNode) (cur : List Nat) (node : BNode) (rst : RSt)
  | scan (s : ScanState) (parts : List BNode)
  | word (s : ScanState) (child : BNode) (rest : List BNode)

/-- Result of a normalization-cluster call: a rewritten tree with its
threaded state, a scan state, or a scan state with remaining parts. -/
inductive NRes : Type where
  | tr (rst : RSt) (tree : RNode)
  | ss (s : ScanState)
  | step (s : ScanState) (rest : List BNode)

/-- Coerce a cluster result to the tree shape (the source functions have
fixed result shapes; the other arms are unreachable). -/
def asTr : Except PyErr NRes → Except PyErr (RSt × RNode)
  | .ok (.tr r t) => .ok (r, t)
  | .ok _ => .error (.attributeError "unexpected result shape")
  | .error e => .error e

/-- Coerce a cluster result to the scan-state shape. -/
def asSs : Except PyErr NRes → Except PyErr ScanState
  | .ok (.ss s) => .ok s
  | .ok _ => .error (.attributeError "unexpected result shape")
  | .error e => .error e

/-- Coerce a cluster result to the word-step shape. -/
def asStep : Except PyErr NRes → Except PyErr (ScanState × List BNode)
  | .ok (.step s r) => .ok (s, r)
  | .ok _ => .error (.attributeError "unexpected result shape")
  | .error e => .error e

/-- The normalization interpreter.  Case norm is normalize (lines
629-727): a plain word becomes an Argument; a compound word dispatches on
its first part (process substitution, command substitution, parameter or
tilde expansion, otherwise plain recursion); a pipeline with an even part
count prints an error and exits the process; unsupported construct kinds
raise ValueError; a node exposing parts that no earlier branch claimed is
recursed into; anything else is silently ignored.  Case cmd is
normalize_command (lines 218-627): the part scan with the single mutable
attachment state, then the post-scan phase (finish_command); the
unary_logic_ops and binary_logic_ops lists of lines 221-222 are filled by
the scan but never read and are not modelled.  Case scan is the while
loop of lines 425-539 minus the word case; assignment and redirect parts
recurse into normalize, every other non-word part kind is skipped.  Case
word is one word part of the scan (lines 432-532): logic operators take
priority over everything, including the argument-only state set by a
double dash (lines 433-445); the double dash switches the acceptable
kinds to argument only (lines 447-451); an unambiguous head-command state
attaches the head and loads its grammar slots (lines 456-464); an
unambiguous argument state attaches either an embedded command (when a
Utility-typed argument is expected, consuming the following parts up to a
semicolon or plus delimiter and recording the delimiter on the attachment
point value, lines 466-495) or one argument of the first acceptable type
(lines 496-501); an ambiguous state decides flag against argument by the
leading dash with the head and tail numeric exception (lines 503-510),
and arguments either start an embedded command when the grammar expects a
Utility (lines 513-526) or go through cmd_arg_type_check, which always
raises (lines 527-531 and the doc comment of cmd_arg_type_check). -/
def nrun (cfg : Cfg) (g : Grammar) : Nat → NCall → Except PyErr NRes
  | 0, _ => .error .fuel
  | Nat.succ f, call =>
    match call with
    | .norm tree cur node _node_kind arg_type rst =>
      if node.kind = "word" then
        match node.parts with
        | [] => do
          let (r, t) ← normalize_argument cfg tree cur node arg_type rst
          .ok (.tr r t)
        | p0 :: _ =>
          if p0.kind = "processsubstitution" then
            if pyIn ">" node.word then
              match attachAtPath tree cur (.mk "processsubstitution" ">" "" ULEFT rst.next []) with
              | some (t2, idx) =>
                nrun cfg g f (.normList t2 (cur ++ [idx]) node.parts { rst with next := rst.next + 1 })
              | none => .error (.attributeError "invalid attach point")
            else if pyIn "<" node.word then
              match attachAtPath tree cur (.mk "processsubstitution" "<" "" ULEFT rst.next []) with
              | some (t2, idx) =>
                nrun cfg g f (.normList t2 (cur ++ [idx]) node.parts { rst with next := rst.next + 1 })
              | none => .error (.attributeError "invalid attach point")
            else .ok (.tr rst tree)
          else if p0.kind = "commandsubstitution" then
            match attachAtPath tree cur (.mk "commandsubstitution" "" "" ULEFT rst.next []) with
            | some (t2, idx) =>
              nrun cfg g f (.normList t2 (cur ++ [idx]) node.parts { rst with next := rst.next + 1 })
            | none => .error (.attributeError "invalid attach point")
          else if p0.kind = "parameter" ∨ p0.kind = "tilde" then do
            let (r, t) ← normalize_argument cfg tree cur node arg_type rst
            .ok (.tr r t)
          else nrun cfg g f (.normList tree cur node.parts rst)
      else if node.kind = "pipeline" then
        match attachAtPath tree cur (.mk "pipeline" "" "" ULEFT rst.next []) with
        | some (t2, idx) =>
          if node.parts.length % 2 = 0 then .error .procExit
          else nrun cfg g f (.pipes t2 (cur ++ [idx]) node.parts { rst with next := rst.next + 1 })
        | none => .error (.attributeError "invalid attach point")
      else if node.kind = "list" then
        if node.parts.length > 2 then .error (.valueError "Unsupported: list of length >= 2")
        else
          match node.parts with
          | [] => .error (.indexError "list index out of range")
          | pfirst :: _ => nrun cfg g f (.norm tree cur pfirst "" "" rst)
      else if node.kind = "commandsubstitution" ∨ node.kind = "processsubstitution" then
        match node.command with
        | some c => nrun cfg g f (.norm tree cur c "" "" rst)
        | none => .error (.attributeError "node has no attribute command")
      else if node.kind = "command" then
        match nrun cfg g f (.cmd tree cur node rst) with
        | .error (.assertionError _) => .error (.assertionError "normalized_command AssertionError")
        | r => r
      else if node.hasParts then
        nrun cfg g f (.normList tree cur node.parts rst)
      else if node.kind = "redirect" then .error (.valueError "Unsupported: redirect")
      else if node.kind = "operator" then .error (.valueError "Unsupported: operator")
      else if node.kind = "parameter" then .error (.valueError "Unsupported: parameters")
      else if node.kind = "for" then .error (.valueError "Unsupported: for")
      else if node.kind = "if" then .error (.valueError "Unsupported: if")
      else if node.kind = "while" then .error (.valueError "Unsupported: while")
      else if node.kind = "until" then .error (.valueError "Unsupported: until")
      else if node.kind = "assignment" then .error (.valueError "Unsupported: assignment")
      else if node.kind = "function" then .error (.valueError "Unsupported: function")
      else if node.kind = "tilde" then .error (.valueError "Unsupported: tilde")
      else if node.kind = "heredoc" then .error (.valueError "Unsupported: heredoc")
      else .ok (.tr rst tree)
    | .normList tree cur ps rst =>
      match ps with
      | [] => .ok (.tr rst tree)
      | c :: cs => do
        let (rst2, t2) ← asTr (nrun cfg g f (.norm tree cur c "" "" rst))
        nrun cfg g f (.normList t2 cur cs rst2)
    | .pipes tree cur ps rst =>
      match ps with
      | [] => .ok (.tr rst tree)
      | c :: cs =>
        if c.kind = "command" then do
          let (rst2, t2) ← asTr (nrun cfg g f (.norm tree cur c "" "" rst))
          nrun cfg g f (.pipes t2 cur cs rst2)
        else if c.kind = "pipe" then nrun cfg g f (.pipes tree cur cs rst)
        else .error (.valueError "Error: unrecognized type of child of pipeline node")
    | .cmd tree cur node rst => do
      let s0 : ScanState :=
        { tree := tree, apath := cur, kinds := ["headcommand"], argTypes := some [],
          argStatus := none, headPaths := [], st := rst }
      let s1 ← asSs (nrun cfg g f (.scan s0 node.parts))
      let (r, t) ← finish_command f s1.st s1.tree s1.headPaths
      .ok (.tr r t)
    | .scan s parts =>
      match parts with
      | [] => .ok (.ss s)
      | child :: rest =>
        if child.kind = "word" then do
          let (s2, rest2) ← asStep (nrun cfg g f (.word s child rest))
          nrun cfg g f (.scan s2 rest2)
        else if child.kind = "assignment" then do
          let (rst2, t2) ← asTr (nrun cfg g f (.norm s.tree s.apath child "assignment" "" s.st))
          nrun cfg g f (.scan { s with tree := t2, st := rst2 } rest)
        else if child.kind = "redirect" then do
          let (rst2, t2) ← asTr (nrun cfg g f (.norm s.tree s.apath child "redirect" "" s.st))
          nrun cfg g f (.scan { s with tree := t2, st := rst2 } rest)
        else nrun cfg g f (.scan s rest)
    | .word s child rest => do
      let ap ←
        match getAtPath s.tree s.apath with
        | some n => Except.ok n
        | none => Except.error (.attributeError "invalid attach point")
      if is_unary_logic_op child.word ap.kind ap.value then
        match attachAtPath s.tree s.apath
            (.mk "unarylogicop" child.word "" (unaryAssocOf child.word) s.st.next []) with
        | some (t2, _) =>
          .ok (.step { s with tree := t2, st := { s.st with next := s.st.next + 1 } } rest)
        | none => .error (.attributeError "invalid attach point")
      else if child.word ∈ binary_logic_operators then
        let (isb, w2) := is_binary_logic_op child.word ap.kind ap.value
        if isb then
          match attachAtPath s.tree s.apath (.mk "binarylogicop" w2 "" ULEFT s.st.next []) with
          | some (t2, _) =>
            .ok (.step { s with tree := t2, st := { s.st with next := s.st.next + 1 } } rest)
          | none => .error (.attributeError "invalid attach point")
        else do
          let s2 ← attach_flag cfg g s child
          .ok (.step s2 rest)
      else if child.word = "--" then
        .ok (.step { s with kinds := ["argument"] } rest)
      else
        match s.kinds with
        | [nk] =>
          if nk = "headcommand" then do
            let (w, lg) ← normalize_word cfg child "headcommand" ""
            match attachAtPath s.tree s.apath (.mk "headcommand" w "" ULEFT s.st.next []) with
            | some (t2, idx) =>
              let hp := s.apath ++ [idx]
              .ok (.step { s with
                            tree := t2, apath := hp, kinds := ["flag", "argument"],
                            argTypes := none, argStatus := some (g.get_arg_types w),
                            headPaths := s.headPaths ++ [hp],
                            st := { s.st with next := s.st.next + 1, log := s.st.log ++ lg } }
                   rest)
            | none => .error (.attributeError "invalid attach point")
          else if nk = "argument" then
            if (match s.argTypes with | some ts => decide ("Utility" ∈ ts) | none => false) then
              let allp := child :: rest
              match findDelimIdx allp with
              | some j => do
                let collected := allp.take j
                let delim := match allp.get? j with | some d => d.word | none => ";"
                let newCmd : BNode := .mk "command" "" true collected true (-1, -1) none
                let (rst2, t2) ← asTr (nrun cfg g f (.cmd s.tree s.apath newCmd s.st))
                match getAtPath t2 s.apath with
                | some apn =>
                  match setAtPath t2 s.apath (apn.setValue (apn.value ++ "::" ++ delim)) with
                  | some t3 => do
                    let s3 ← look_above { s with tree := t3, st := rst2 }
                    .ok (.step s3 (allp.drop (j + 1)))
                  | none => .error (.attributeError "invalid attach point")
                | none => .error (.attributeError "invalid attach point")
              | none => do
                let rstW := { s.st with
                                log := s.st.log ++
                                  ["Warning: -exec missing ending semicolon"] }
                let newCmd : BNode := .mk "command" "" true allp true (-1, -1) none
                let (rst2, t2) ← asTr (nrun cfg g f (.cmd s.tree s.apath newCmd rstW))
                match getAtPath t2 s.apath with
                | some apn =>
                  match setAtPath t2 s.apath (apn.setValue (apn.value ++ "::;")) with
                  | some t3 => do
                    let s3 ← look_above { s with tree := t3, st := rst2 }
                    .ok (.step s3 [])
                  | none => .error (.attributeError "invalid attach point")
                | none => .error (.attributeError "invalid attach point")
            else
              match s.argTypes with
              | none => .error (.typeError "argument of type NoneType is not iterable")
              | some [] => .error (.indexError "list index out of range")
              | some (t :: _) => do
                let (rst2, t2) ← asTr (nrun cfg g f (.norm s.tree s.apath child "argument" t s.st))
                let s3 ← look_above { s with tree := t2, st := rst2 }
                .ok (.step s3 rest)
          else .ok (.step s rest)
        | _ =>
          if pyStartsWith child.word "-"
              ∧ ¬((ap.value = "head" ∨ ap.value = "tail")
                  ∧ pyIsDigit (⟨child.word.toList.drop 1⟩ : String)) then do
            let s2 ← attach_flag cfg g s child
            .ok (.step s2 rest)
          else
            match s.argStatus with
            | none => .error (.typeError "NoneType object is not subscriptable")
            | some ast =>
              if expecting ast "Utility" then do
                let allp := child :: rest
                let newCmd : BNode := .mk "command" "" true allp true (-1, -1) none
                let (rst2, t2) ← asTr (nrun cfg g f (.cmd s.tree s.apath newCmd s.st))
                let s3 ← look_above { s with tree := t2, st := rst2 }
                .ok (.step s3 [])
              else do
                let _ ← cmd_arg_type_check (some ast)
                .error (.attributeError "unreachable: cmd_arg_type_check always raises")

/-- normalize (lines 629-727): see the norm case of nrun. -/
def normalizeM (fuel : Nat) (cfg : Cfg) (g : Grammar) (tree : RNode) (cur : List Nat)
    (node : BNode) (node_kind arg_type : String) (rst : RSt) : Except PyErr (RSt × RNode) :=
  asTr (nrun cfg g fuel (.norm tree cur node node_kind arg_type rst))

/-- normalize_command (lines 218-627): see the cmd case of nrun. -/
def normalize_command (fuel : Nat) (cfg : Cfg) (g : Grammar) (tree : RNode) (cur : List Nat)
    (node : BNode) (rst : RSt) : Except PyErr (RSt × RNode) :=
  asTr (nrun cfg g fuel (.cmd tree cur node rst))

/-- The scan loop over command parts (lines 425-539): see the scan case
of nrun. -/
def scanParts (fuel : Nat) (cfg : Cfg) (g : Grammar) (s : ScanState) (parts : List BNode) :
    Except PyErr ScanState :=
  asSs (nrun cfg g fuel (.scan s parts))

/-- One word part of the scan (lines 432-532): see the word case of
nrun. -/
def scanWordStep (fuel : Nat) (cfg : Cfg) (g : Grammar) (s : ScanState) (child : BNode)
    (rest : List BNode) : Except PyErr (ScanState × List BNode) :=
  asStep (nrun cfg g fuel (.word s child rest))


/-! ## Predicates and concrete fixtures used by the stated properties -/

mutual
/-- No Argument node valued as an opening or closing parenthesis anywhere
in the subtree (the post-resolution invariant of the spec). -/
def pfN : RNode → Bool
  | .mk k v _ _ _ cs => (!(k == "argument" && (v == "(" || v == ")"))) && pfL cs

/-- pfN over a child list. -/
def pfL : List RNode → Bool
  | [] => true
  | c :: cs => pfN c && pfL cs
end

mutual
/-- Every Flag value that contains the double-colon separator splits into
exactly two pieces (the condition under which the flag branch of
to_tokens_fun can unpack the split). -/
def flagsOkN : RNode → Bool
  | .mk k v _ _ _ cs =>
    (!(k == "flag") || !(pyIn "::" v) || (pySplit v "::").length == 2) && flagsOkL cs

/-- flagsOkN over a child list. -/
def flagsOkL : List RNode → Bool
  | [] => true
  | c :: cs => flagsOkN c && flagsOkL cs
end

/-- Kind and value of a node, for stating child-list shapes. -/
def kindValue (n : RNode) : String × String := (n.kind, n.value)

/-- Test grammar for the concrete scenarios: find takes a list of File
positional arguments, its -name flag takes a Pattern argument, -a is not
a find flag; long options are the two-leading-dash spellings. -/
def testGrammar : Grammar where
  get_arg_types := fun h =>
    if h = "find" then { nonOptional := [⟨"File", true, false⟩], optional := [] }
    else { nonOptional := [], optional := [] }
  get_flag_arg_type := fun h fl =>
    if h = "find" ∧ fl = "-name" then some "Pattern" else none
  is_double_option := fun w => pyStartsWith w "--"

/-- Configuration for the double-dash scenario: the normalize_ast
defaults over the command text find -name -- -a y. -/
def testCfg : Cfg :=
  { cmd := "find -name -- -a y", normalize_digits := true,
    normalize_long_pattern := true, recover_quotation := true, verbose := false }

/-- A word part of the external parse tree. -/
def bWord (w : String) (a b : Int) : BNode := .mk "word" w true [] false (a, b) none

/-- Parts of the command find -name -- -a y with their source offsets. -/
def c5parts : List BNode :=
  [bWord "find" 0 4, bWord "-name" 5 10, bWord "--" 11 13, bWord "-a" 14 16, bWord "y" 17 18]

/-- The raw command node for find -name -- -a y. -/
def c5cmdNode : BNode := .mk "command" "" true c5parts true (0, 18) none

/-- An empty Root node. -/
def rootNode : RNode := .mk "root" "" "" 0 0 []

/-- Fresh resolver state. -/
def rst0 : RSt := { log := [], next := 1, uQ := [], bQ := [] }

/-- Guard of the reserved-token heuristic of type_check. -/
abbrev tcReserved (w : String) : Prop := w = "+" ∨ w = ";" ∨ w = "\x7b\x7d"

/-- Guard of the Number heuristic of type_check. -/
abbrev tcNumber (w : String) (ts : List String) : Prop :=
  pyIsDigit w = true ∧ "Number" ∈ ts

/-- Guard of the Size heuristic of type_check. -/
abbrev tcSize (w : String) (ts : List String) : Prop :=
  anyDigit w = true ∧ w.toList.getLast? ∈ [some 'k', some 'M', some 'G', some 'T', some 'P']
    ∧ "Size" ∈ ts

/-- Guard of the Time heuristic of type_check. -/
abbrev tcTime (w : String) (ts : List String) : Prop :=
  anyDigit w = true ∧ w.toList.getLast? ∈ [some 's', some 'm', some 'h', some 'd', some 'w']
    ∧ "Time" ∈ ts

/-- Guard of the Permission heuristic of type_check. -/
abbrev tcPermission (w : String) (ts : List String) : Prop :=
  "Permission" ∈ ts ∧ (anyDigit w = true ∨ pyIn "=" w = true)

/-- Guard of the Pattern heuristic of type_check. -/
abbrev tcPattern (w : String) (pos : Int × Int) (ts : List String) : Prop :=
  "Pattern" ∈ ts ∧ (w.length : Int) = pos.2 - pos.1 - 2

/-- Configuration for the flag-splitting scenarios (quotation recovery
off, so flag values equal the parser words). -/
def cfg6 : Cfg :=
  { cmd := "find -abc", normalize_digits := true, normalize_long_pattern := true,
    recover_quotation := false, verbose := false }

/-- A root owning a bare find head command. -/
def tree6 : RNode := .mk "root" "" "" 0 0 [.mk "headcommand" "find" "" 0 1 []]

/-- Scan state sitting at the find head command with ambiguous kinds. -/
def s6 : ScanState :=
  { tree := tree6, apath := [0], kinds := ["flag", "argument"], argTypes := none,
    argStatus := some (testGrammar.get_arg_types "find"), headPaths := [[0]],
    st := { log := [], next := 2, uQ := [], bQ := [] } }

/-- Scan state in the argument-only mode expecting one Pattern. -/
def s5w : ScanState :=
  { tree := tree6, apath := [0], kinds := ["argument"], argTypes := some ["Pattern"],
    argStatus := some (testGrammar.get_arg_types "find"), headPaths := [[0]],
    st := { log := [], next := 2, uQ := [], bQ := [] } }

/-- The tree of s5w after one Pattern argument has been attached. -/
def tree5w2 : RNode :=
  .mk "root" "" "" 0 0 [.mk "headcommand" "find" "" 0 1 [.mk "argument" "y" "Pattern" 0 2 []]]

/-- The scan state reached from s5w by the word step on y: the Pattern
argument is attached and the attachment point returns to the head
command. -/
def s5w2 : ScanState :=
  { tree := tree5w2, apath := [0], kinds := ["flags", "arguments"], argTypes := none,
    argStatus := some (testGrammar.get_arg_types "find"), headPaths := [[0]],
    st := { log := [], next := 3, uQ := [], bQ := [] } }

/-- A root owning a bare tar head command (an attachment point that is
not find). -/
def tree6c : RNode := .mk "root" "" "" 0 0 [.mk "headcommand" "tar" "" 0 1 []]

/-- Scan state sitting at the tar head command. -/
def s6c : ScanState :=
  { tree := tree6c, apath := [0], kinds := ["flag", "argument"], argTypes := none,
    argStatus := some (testGrammar.get_arg_types "tar"), headPaths := [[0]],
    st := { log := [], next := 2, uQ := [], bQ := [] } }

/-- s6c after the long option is attached as one unsplit Flag node. -/
def s6ca : ScanState :=
  { tree := .mk "root" "" "" 0 0
      [.mk "headcommand" "tar" "" 0 1 [.mk "flag" "--file" "" ULEFT 2 []]],
    apath := [0], kinds := ["flag", "argument"], argTypes := none,
    argStatus := some (testGrammar.get_arg_types "tar"), headPaths := [[0]],
    st := { log := [], next := 3, uQ := [], bQ := [] } }

/-- s6c after the clustered token -abc is split into three Flag nodes. -/
def s6cb : ScanState :=
  { tree := .mk "root" "" "" 0 0
      [.mk "headcommand" "tar" "" 0 1
        [.mk "flag" "-a" "" ULEFT 2 [], .mk "flag" "-b" "" ULEFT 3 [],
         .mk "flag" "-c" "" ULEFT 4 []]],
    apath := [0], kinds := ["flag", "argument"], argTypes := none,
    argStatus := some (testGrammar.get_arg_types "tar"), headPaths := [[0]],
    st := { log := [], next := 5, uQ := [], bQ := [] } }

/-- Root over a find head command with one plain argument (the
serialization counterexample tree). -/
def c2tree : RNode :=
  .mk "root" "" "" 0 0 [.mk "headcommand" "find" "" 0 1 [.mk "argument" "." "File" 0 2 []]]

/-! # Theorems -/

/-- Pruning preserves the kind of a node. -/
theorem pruneN_kind (n : RNode) : (pruneN n).kind = n.kind := by
  cases n
  rfl

/-- Pruning preserves the argument type of a node. -/
theorem pruneN_argType (n : RNode) : (pruneN n).argType = n.argType := by
  cases n
  rfl

mutual
/-- Pruning a node twice equals pruning it once. -/
theorem pruneN_idem : (n : RNode) → pruneN (pruneN n) = pruneN n
  | .mk k v t a i cs => by
    simp only [pruneN]
    exact congrArg _ (pruneL_idem cs)

/-- Pruning a child list twice equals pruning it once. -/
theorem pruneL_idem : (l : List RNode) → pruneL (pruneL l) = pruneL l
  | [] => by simp [pruneL]
  | c :: cs => by
    by_cases h : c.kind = "argument" ∧ c.argType ≠ "ReservedWord"
    · simp only [pruneL, if_pos h]
      exact pruneL_idem cs
    · simp only [pruneL, if_neg h]
      have h2 : ¬ ((pruneN c).kind = "argument" ∧ (pruneN c).argType ≠ "ReservedWord") := by
        simpa [pruneN_kind, pruneN_argType] using h
      simp only [pruneL, if_neg h2]
      rw [pruneN_idem c, pruneL_idem cs]
end

/-- Claim C9: the structural pruner is idempotent; for every canonical
tree (present or absent), pruning twice yields the same tree as pruning
once.  The source never mutates its input: prune_ast works on a deep copy
(normalizer.py line 793), which the pure embedding renders as returning a
new tree. -/
theorem c9_prune_ast_idempotent : ∀ n : Option RNode, prune_ast (prune_ast n) = prune_ast n
  | none => rfl
  | some n => by simp [prune_ast, pruneN_idem n]

/-- Claim C10 (counterexample): pre-parse normalization does not always
remove every occurrence of sudo.  Deleting the single-scan occurrences of
sudo from susudodo juxtaposes a new sudo, so the command string handed to
the parser still contains the substring. -/
theorem c10_counterexample :
    pyIn "sudo" (normalizePreprocess "susudodo") = true
    ∧ normalizePreprocess "susudodo" = "sudo" := by
  exact ⟨rfl, rfl⟩

/-- Claim C10 (amended): before parsing, normalization deletes the
occurrences of sudo found in one left-to-right non-overlapping scan of
the input, including occurrences inside longer words; occurrences formed
by the deletions themselves survive, so the normalized string can still
contain sudo.  Witnessed by a plain occurrence, an occurrence inside a
longer word, and the self-reassembling input. -/
theorem c10_single_pass_removal :
    normalizePreprocess "sudo find . -name foo" = " find . -name foo"
    ∧ normalizePreprocess "mysudotool x" = "mytool x"
    ∧ normalizePreprocess "susudodo" = "sudo" := by
  exact ⟨rfl, rfl, rfl⟩

/-- Claim C1 (counterexample): with two head commands detected, the tail
of normalize_command does not hand the caller a typed error that the
batch driver catches; it terminates the whole process (sys.exit at
normalizer.py line 550), an outcome normalize_ast cannot catch. -/
theorem c1_counterexample :
    finish_command 5 rst0 rootNode [[0], [1]] = .error .procExit
    ∧ normalizeAstCatches .procExit = false := by
  exact ⟨rfl, rfl⟩

/-- Claim C1 (amended): whenever more than one head command has been
recorded for a command node, the tail of normalize_command prints an
error and calls sys.exit, terminating the process; no typed error reaches
the caller and batch processing does not continue. -/
theorem c1_multiple_heads_exit (fuel : Nat) (st : RSt) (cur : RNode)
    (p q : List Nat) (ps : List (List Nat)) :
    finish_command fuel st cur (p :: q :: ps) = .error .procExit := by
  rfl

/-- Claim C8 (counterexample): loose-mode serialization can raise.  A
Flag node whose value holds two double-colon separators makes the
two-variable unpack of the split fail with ValueError even under
loose_constraints. -/
theorem c8_counterexample :
    to_tokens (some (.mk "flag" "a::b::c" "" 0 0 [])) true false false false
    = .error (.valueError "too many values to unpack") := by
  rfl

/-- Claim C2 (counterexample): the strict serialization of the canonical
tree find with one path argument is a plain token list, and deserializing
it with list_to_ast raises ValueError (the second token has no underscore
to split on), so no structurally equal tree is produced. -/
theorem c2_counterexample :
    to_tokens (some c2tree) false false false false = .ok ["find", "."]
    ∧ list_to_ast testGrammar ["find", "."]
      = .error (.valueError "need more than 1 value to unpack") := by
  exact ⟨rfl, rfl⟩

/-- Claim C5 (counterexample): in the command find -name -- -a y the word
-a follows the double dash, yet normalization attaches it as a Flag node
(under the -name flag), not as an Argument: the binary-operator lexicon
check of line 438 runs before the argument-only state is consulted and
routes the word to attach_flag. -/
theorem c5_counterexample :
    ((normalize_command 30 testCfg testGrammar rootNode [] c5cmdNode rst0).toOption.bind
      fun r => (getAtPath r.2 [0, 1, 0]).map kindValue) = some ("flag", "-a") := by
  rfl

/-- Claim C6 (counterexample): a clustered short-option token of length
greater than two is not always split: at a find attachment point the
token -abc attaches as one single Flag node. -/
theorem c6_counterexample :
    ((attach_flag cfg6 testGrammar s6 (bWord "-abc" 5 9)).toOption.bind
      fun s2 => (getAtPath s2.tree [0]).map fun n => n.children.map kindValue)
    = some [("flag", "-abc")] := by
  rfl

/-- Claim C7: the argument type classifier applies its heuristics in
exactly the stated precedence order: reserved structural tokens, then
Number, Size, Time, Permission, Pattern (each when allowed and when no
earlier heuristic fired), then File, then Utility, then Unknown. -/
theorem c7_type_check_order (w : String) (pos : Int × Int) (ts : List String) :
    (tcReserved w → type_check w pos ts = "ReservedWord")
    ∧ (¬ tcReserved w → tcNumber w ts → type_check w pos ts = "Number")
    ∧ (¬ tcReserved w → ¬ tcNumber w ts → tcSize w ts → type_check w pos ts = "Size")
    ∧ (¬ tcReserved w → ¬ tcNumber w ts → ¬ tcSize w ts → tcTime w ts →
        type_check w pos ts = "Time")
    ∧ (¬ tcReserved w → ¬ tcNumber w ts → ¬ tcSize w ts → ¬ tcTime w ts →
        tcPermission w ts → type_check w pos ts = "Permission")
    ∧ (¬ tcReserved w → ¬ tcNumber w ts → ¬ tcSize w ts → ¬ tcTime w ts →
        ¬ tcPermission w ts → tcPattern w pos ts → type_check w pos ts = "Pattern")
    ∧ (¬ tcReserved w → ¬ tcNumber w ts → ¬ tcSize w ts → ¬ tcTime w ts →
        ¬ tcPermission w ts → ¬ tcPattern w pos ts → "File" ∈ ts →
        type_check w pos ts = "File")
    ∧ (¬ tcReserved w → ¬ tcNumber w ts → ¬ tcSize w ts → ¬ tcTime w ts →
        ¬ tcPermission w ts → ¬ tcPattern w pos ts → "File" ∉ ts → "Utility" ∈ ts →
        type_check w pos ts = "Utility")
    ∧ (¬ tcReserved w → ¬ tcNumber w ts → ¬ tcSize w ts → ¬ tcTime w ts →
        ¬ tcPermission w ts → ¬ tcPattern w pos ts → "File" ∉ ts → "Utility" ∉ ts →
        type_check w pos ts = "Unknown") := by
  unfold type_check tcReserved tcNumber tcSize tcTime tcPermission tcPattern
  refine ⟨?_, ?_, ?_, ?_, ?_, ?_, ?_, ?_, ?_⟩ <;> intros <;>
    first
    | rfl
    | (split_ifs <;> first | rfl | tauto)

/-- Witness for C7: one concrete classification per heuristic, each
derived from the precedence theorem with its guards discharged. -/
theorem c7_witness :
    type_check "+" (0, 1) [] = "ReservedWord"
    ∧ type_check "42" (0, 2) ["Number", "Permission"] = "Number"
    ∧ type_check "10k" (0, 3) ["Size"] = "Size"
    ∧ type_check "10h" (0, 3) ["Time"] = "Time"
    ∧ type_check "755" (0, 3) ["Permission"] = "Permission"
    ∧ type_check "ab" (0, 4) ["Pattern"] = "Pattern"
    ∧ type_check "foo" (0, 3) ["File"] = "File"
    ∧ type_check "foo" (0, 3) ["Utility"] = "Utility"
    ∧ type_check "foo" (0, 3) [] = "Unknown" := by
  refine ⟨(c7_type_check_order "+" (0, 1) []).1 (by decide),
    (c7_type_check_order "42" (0, 2) ["Number", "Permission"]).2.1 (by decide) (by decide),
    (c7_type_check_order "10k" (0, 3) ["Size"]).2.2.1 (by decide) (by decide) (by decide),
    (c7_type_check_order "10h" (0, 3) ["Time"]).2.2.2.1 (by decide) (by decide) (by decide)
      (by decide),
    (c7_type_check_order "755" (0, 3) ["Permission"]).2.2.2.2.1 (by decide) (by decide)
      (by decide) (by decide) (by decide),
    (c7_type_check_order "ab" (0, 4) ["Pattern"]).2.2.2.2.2.1 (by decide) (by decide)
      (by decide) (by decide) (by decide) (by decide),
    (c7_type_check_order "foo" (0, 3) ["File"]).2.2.2.2.2.2.1 (by decide) (by decide)
      (by decide) (by decide) (by decide) (by decide) (by decide),
    (c7_type_check_order "foo" (0, 3) ["Utility"]).2.2.2.2.2.2.2.1 (by decide) (by decide)
      (by decide) (by decide) (by decide) (by decide) (by decide) (by decide),
    (c7_type_check_order "foo" (0, 3) []).2.2.2.2.2.2.2.2 (by decide) (by decide)
      (by decide) (by decide) (by decide) (by decide) (by decide) (by decide)⟩

/-- Claim C2 (amended): deserialization does not invert strict
serialization.  list_to_ast consumes kind-prefixed tokens with pop
markers and skips the leading token; to_tokens emits bare values, so for
every canonical tree whose head command is followed by a plain argument
token (no underscore, not a pop marker), deserializing the strict token
stream raises ValueError instead of reproducing the tree. -/
theorem c2_deserialize_mismatch (g : Grammar) (v a ty : String) (i0 i1 i2 : Nat)
    (others : List RNode) (toks : List String)
    (hser : to_tokens (some (.mk "root" "" "" 0 i0
      [.mk "headcommand" v "" 0 i1 (.mk "argument" a ty 0 i2 [] :: others)]))
      false false false false = .ok toks)
    (ha1 : a ≠ H_NO_EXPAND) (ha2 : a ≠ V_NO_EXPAND)
    (hsplit : pySplit1 a "_" = [a]) :
    list_to_ast g toks = .error (.valueError "need more than 1 value to unpack") := by
  cases hre : to_tokens_each false false false false others with
  | error e =>
    simp +decide [to_tokens, to_tokens_fun, to_tokens_each, hre, bind, Except.bind,
      RNode.value] at hser
  | ok rps =>
    simp +decide [to_tokens, to_tokens_fun, to_tokens_each, hre, bind, Except.bind,
      RNode.value] at hser
    subst hser
    simp only [H_NO_EXPAND] at ha1
    simp only [V_NO_EXPAND] at ha2
    simp [list_to_ast, listToAstLoop, ha1, ha2, hsplit, H_NO_EXPAND, V_NO_EXPAND,
      bind, Except.bind]

/-- Witness for C2: the amended statement applied to the concrete tree
ls with one argument x. -/
theorem c2_witness :
    list_to_ast testGrammar ["ls", "x"]
      = .error (.valueError "need more than 1 value to unpack") :=
  c2_deserialize_mismatch testGrammar "ls" "x" "File" 0 1 2 [] ["ls", "x"]
    (by rfl) (by decide) (by decide) (by rfl)

/-- normalize on a plain word node (no parts) is exactly
normalize_argument. -/
theorem nrun_norm_plain (cfg : Cfg) (g : Grammar) (f : Nat) (tree : RNode) (cur : List Nat)
    (node : BNode) (nk at2 : String) (rst : RSt)
    (hkw : node.kind = "word") (hparts : node.parts = []) :
    nrun cfg g (f + 1) (.norm tree cur node nk at2 rst) =
      match normalize_argument cfg tree cur node at2 rst with
      | .ok (r, t2) => .ok (.tr r t2)
      | .error e => .error e := by
  unfold nrun
  simp only []
  rw [hkw, hparts]
  simp only [reduceIte]
  simp only [bind, Except.bind]
  cases hna : normalize_argument cfg tree cur node at2 rst with
  | ok p => cases p with | mk r t2 => rfl
  | error e => rfl

/-- Claim C5 (amended): once the scan is in the argument-only state set
by a double dash (acceptable kinds reduced to argument), a word that is
not a unary or binary logic operator and not another double dash, whose
argument-type list is nonempty and does not expect an embedded Utility,
attaches as an Argument node of the first acceptable type at the current
attachment point, and consumes no further parts. -/
theorem c5_dashdash_argument_only
    (f : Nat) (cfg : Cfg) (g : Grammar) (s : ScanState) (child : BNode) (rest : List BNode)
    (ap : RNode) (t : String) (ts : List String) (s2 : ScanState) (rest2 : List BNode)
    (hap : getAtPath s.tree s.apath = some ap)
    (hu : is_unary_logic_op child.word ap.kind ap.value = false)
    (hb : child.word ∉ binary_logic_operators)
    (hd : ¬ child.word = "--")
    (hk : s.kinds = ["argument"])
    (ht : s.argTypes = some (t :: ts))
    (hnu : "Utility" ∉ t :: ts)
    (hkw : child.kind = "word")
    (hparts : child.parts = [])
    (h : scanWordStep (f + 2) cfg g s child rest = .ok (s2, rest2)) :
    rest2 = rest ∧
      ∃ w idx,
        attachAtPath s.tree s.apath (RNode.mk "argument" w t ULEFT s.st.next []) =
          some (s2.tree, idx) := by
  unfold scanWordStep at h
  unfold nrun at h
  simp only [] at h
  rw [hap] at h
  simp only [bind, Except.bind] at h
  rw [hu] at h
  simp only [Bool.false_eq_true, if_false] at h
  rw [if_neg hb, if_neg hd, hk] at h
  simp only [] at h
  simp only [String.reduceEq, reduceIte] at h
  rw [ht] at h
  simp only [decide_eq_false hnu, Bool.false_eq_true, if_false] at h
  try simp only [] at h
  rw [nrun_norm_plain cfg g f s.tree s.apath child "argument" t s.st hkw hparts] at h
  cases hna : normalize_argument cfg s.tree s.apath child t s.st with
  | error e => rw [hna] at h; simp [asTr, asStep, bind, Except.bind] at h
  | ok p =>
    rw [hna] at h
    cases p with
    | mk r t2 =>
      simp only [asTr, bind, Except.bind] at h
      cases hla : look_above
          { tree := t2, apath := s.apath, kinds := ["argument"], argTypes := some (t :: ts),
            argStatus := s.argStatus, headPaths := s.headPaths, st := r } with
      | error e => rw [hla] at h; simp [asStep] at h
      | ok s3 =>
        rw [hla] at h
        simp only [asStep] at h
        have hpair := Prod.mk.inj (Except.ok.inj h)
        have hs2 : s2 = s3 := hpair.1.symm
        have hr2 : rest2 = rest := hpair.2.symm
        refine ⟨hr2, ?_⟩
        unfold normalize_argument at hna
        cases hnw : normalize_word cfg child "argument" t with
        | error e => rw [hnw] at hna; simp [bind, Except.bind] at hna
        | ok wl =>
          rw [hnw] at hna
          cases wl with
          | mk w lg =>
            simp only [bind, Except.bind] at hna
            cases hat : attachAtPath s.tree s.apath
                (RNode.mk "argument" w t ULEFT s.st.next []) with
            | none => rw [hat] at hna; simp at hna
            | some q =>
              rw [hat] at hna
              cases q with
              | mk tt ii =>
                have hq := Prod.mk.inj (Except.ok.inj hna)
                have ht2 : t2 = tt := hq.2.symm
                have hs3t : s3.tree = t2 := by
                  unfold look_above at hla
                  simp only [] at hla
                  cases hhp : headCommandPathOn t2 s.apath with
                  | none => rw [hhp] at hla; exact Except.noConfusion hla
                  | some hp =>
                    rw [hhp] at hla
                    rw [← Except.ok.inj hla]
                exact ⟨w, ii, by rw [hat, hs2, hs3t, ht2]⟩

/-- Witness for C5: the amended statement applied to the word y in the
argument-only state of find -name -- (one Pattern expected). -/
theorem c5_witness :
    ([] : List BNode) = [] ∧
      ∃ w idx,
        attachAtPath s5w.tree s5w.apath (RNode.mk "argument" w "Pattern" ULEFT s5w.st.next []) =
          some (s5w2.tree, idx) :=
  c5_dashdash_argument_only 28 cfg6 testGrammar s5w (bWord "y" 17 18) []
    (RNode.mk "headcommand" "find" "" 0 1 []) "Pattern" [] s5w2 []
    (by rfl) (by rfl) (by decide) (by decide) (by rfl) (by rfl) (by decide) (by rfl) (by rfl)
    (by rfl)

/-- Setting an index that exists yields the new element at that index. -/
theorem listGetSetSame : ∀ (l : List RNode) (i : Nat) (a c : RNode),
    l.get? i = some c → (l.set i a).get? i = some a
  | [], i, a, c, h => by simp at h
  | _ :: _, 0, a, c, h => by rfl
  | x :: xs, i + 1, a, c, h => by
    simp only [List.get?] at h
    simp only [List.set, List.get?]
    exact listGetSetSame xs i a c h

/-- The node written at a path is the node read back at that path. -/
theorem getAtPath_setAtPath : ∀ (p : List Nat) (tree m t2 : RNode),
    setAtPath tree p m = some t2 → getAtPath t2 p = some m
  | [], tree, m, t2, h => by
    simp only [setAtPath] at h
    rw [← Option.some.inj h]
    rfl
  | i :: p, tree, m, t2, h => by
    unfold setAtPath at h
    cases hg : tree.children.get? i with
    | none => rw [hg] at h; exact Option.noConfusion h
    | some c =>
      rw [hg] at h
      simp only [] at h
      cases hs : setAtPath c p m with
      | none => rw [hs] at h; exact Option.noConfusion h
      | some c2 =>
        rw [hs] at h
        rw [← Option.some.inj h]
        unfold getAtPath
        have hcg : (tree.withChildren (tree.children.set i c2)).children
            = tree.children.set i c2 := by cases tree; rfl
        rw [hcg, listGetSetSame tree.children i c2 c hg]
        exact getAtPath_setAtPath p c m c2 hs

/-- A path that reads back some node can be written to. -/
theorem setAtPath_total : ∀ (p : List Nat) (tree tgt m : RNode),
    getAtPath tree p = some tgt → ∃ t2, setAtPath tree p m = some t2
  | [], tree, tgt, m, _ => ⟨m, rfl⟩
  | i :: p, tree, tgt, m, h => by
    unfold getAtPath at h
    cases hg : tree.children.get? i with
    | none => rw [hg] at h; exact Option.noConfusion h
    | some c =>
      rw [hg] at h
      simp only [] at h
      obtain ⟨c2, hc2⟩ := setAtPath_total p c tgt m h
      refine ⟨tree.withChildren (tree.children.set i c2), ?_⟩
      unfold setAtPath
      rw [hg]
      simp only []
      rw [hc2]

/-- Attaching under an existing attachment point succeeds and the point
reads back with the child appended. -/
theorem attachAtPath_get (tree : RNode) (p : List Nat) (c tgt : RNode)
    (hg : getAtPath tree p = some tgt) :
    ∃ t2, attachAtPath tree p c = some (t2, tgt.children.length) ∧
      getAtPath t2 p = some (tgt.addChild c) := by
  unfold attachAtPath
  rw [hg]
  simp only []
  obtain ⟨t2, hset⟩ := setAtPath_total p tree tgt (tgt.addChild c) hg
  rw [hset]
  exact ⟨t2, rfl, getAtPath_setAtPath p tree (tgt.addChild c) t2 hset⟩

/-- With quotation recovery off, word normalization of a flag returns the
parser word and no diagnostics. -/
theorem normalize_word_flag_raw (cfg : Cfg) (node : BNode) (a : String)
    (hrq : cfg.recover_quotation = false) :
    normalize_word cfg node "flag" a = .ok (node.word, []) := by
  unfold normalize_word
  rw [hrq]
  simp [bind, Except.bind]

/-- With quotation recovery off and a live attachment point, normalize_flag
attaches one Flag node carrying the parser word. -/
theorem normalize_flag_raw (cfg : Cfg) (tree : RNode) (cur : List Nat) (node : BNode)
    (rst : RSt) (tgt : RNode) (hrq : cfg.recover_quotation = false)
    (hg : getAtPath tree cur = some tgt) :
    ∃ t2, normalize_flag cfg tree cur node rst = .ok ({ rst with next := rst.next + 1 }, t2) ∧
      getAtPath t2 cur = some (tgt.addChild (RNode.mk "flag" node.word "" ULEFT rst.next [])) := by
  unfold normalize_flag
  rw [normalize_word_flag_raw cfg node "" hrq]
  simp only [bind, Except.bind]
  obtain ⟨t2, hat, hgot⟩ :=
    attachAtPath_get tree cur (RNode.mk "flag" node.word "" ULEFT rst.next []) tgt hg
  rw [hat]
  exact ⟨t2, by simp, hgot⟩

/-- The clone-per-character loop appends, at the attachment point, one
Flag child per option character, a dash followed by the character. -/
theorem attachSplitFlags_children : ∀ (cs : List Char) (cfg : Cfg) (tree : RNode)
    (cur : List Nat) (node : BNode) (rst : RSt) (tgt : RNode) (rst2 : RSt) (t2 : RNode),
    cfg.recover_quotation = false → getAtPath tree cur = some tgt →
    attachSplitFlags cfg tree cur node rst cs = .ok (rst2, t2) →
    ∃ tgt2, getAtPath t2 cur = some tgt2 ∧
      tgt2.children.map kindValue =
        tgt.children.map kindValue ++ cs.map (fun c => ("flag", "-" ++ String.mk [c]))
  | [], cfg, tree, cur, node, rst, tgt, rst2, t2, hrq, hg, h => by
    unfold attachSplitFlags at h
    have hp := Prod.mk.inj (Except.ok.inj h)
    refine ⟨tgt, ?_, by simp⟩
    rw [← hp.2]
    exact hg
  | c :: cs, cfg, tree, cur, node, rst, tgt, rst2, t2, hrq, hg, h => by
    unfold attachSplitFlags at h
    obtain ⟨t1, hnf, hg1⟩ :=
      normalize_flag_raw cfg tree cur (node.withWord ("-" ++ String.mk [c])) rst tgt hrq hg
    rw [hnf] at h
    simp only [bind, Except.bind] at h
    have hw : (node.withWord ("-" ++ String.mk [c])).word = "-" ++ String.mk [c] := by
      cases node; rfl
    rw [hw] at hg1
    obtain ⟨tgt2, hg2, hm⟩ := attachSplitFlags_children cs cfg t1 cur node _
      (tgt.addChild (RNode.mk "flag" ("-" ++ String.mk [c]) "" ULEFT rst.next [])) rst2 t2
      hrq hg1 h
    refine ⟨tgt2, hg2, ?_⟩
    rw [hm]
    have hac : (tgt.addChild (RNode.mk "flag" ("-" ++ String.mk [c]) "" ULEFT rst.next [])).children
        = tgt.children ++ [RNode.mk "flag" ("-" ++ String.mk [c]) "" ULEFT rst.next []] := by
      cases tgt; rfl
    rw [hac]
    simp [kindValue, RNode.kind, RNode.value]

/-- Claim C6 (amended): flag attachment (a) never splits a token the
grammar marks as a long option, which attaches as a single Flag node, and
(b) splits a clustered short-option token of length greater than two at a
non-find attachment point, when the token is not a logic-operator word,
into exactly one Flag child per option character, appended in order at
the attachment point. -/
theorem c6_flag_splitting :
    (∀ (cfg : Cfg) (g : Grammar) (s : ScanState) (child : BNode) (s2 : ScanState),
      g.is_double_option child.word = true →
      attach_flag cfg g s child = .ok s2 →
      ∃ w idx, attachAtPath s.tree s.apath (RNode.mk "flag" w "" ULEFT s.st.next []) =
        some (s2.tree, idx))
    ∧ (∀ (cfg : Cfg) (g : Grammar) (s : ScanState) (child : BNode) (ap : RNode)
        (s2 : ScanState),
      cfg.recover_quotation = false → cfg.verbose = false →
      getAtPath s.tree s.apath = some ap →
      g.is_double_option child.word = false →
      is_unary_logic_op child.word ap.kind ap.value = false →
      child.word ∉ binary_logic_operators →
      ¬ ap.value = "find" →
      2 < child.word.toList.length →
      pyStartsWith child.word "-" = true →
      attach_flag cfg g s child = .ok s2 →
      ∃ tgt2, getAtPath s2.tree s.apath = some tgt2 ∧
        tgt2.children.map kindValue =
          ap.children.map kindValue ++
            (child.word.toList.drop 1).map (fun c => ("flag", "-" ++ String.mk [c]))) := by
  constructor
  · intro cfg g s child s2 hdo h
    unfold attach_flag at h
    cases hap : getAtPath s.tree s.apath with
    | none => rw [hap] at h; simp [bind, Except.bind] at h
    | some ap =>
      rw [hap] at h
      simp only [bind, Except.bind] at h
      rw [if_pos (Or.inl hdo)] at h
      cases hnf : normalize_flag cfg s.tree s.apath child s.st with
      | error e => rw [hnf] at h; simp [bind, Except.bind] at h
      | ok p =>
        rw [hnf] at h
        cases p with
        | mk r1 t1 =>
          simp only [bind, Except.bind] at h
          try simp only [] at h
          have hs2t : s2.tree = t1 := by
            cases hh : getHeadCommandOn t1 s.apath with
            | none =>
              rw [hh] at h
              try simp only [] at h
              exact Except.noConfusion h
            | some hd =>
              rw [hh] at h
              try simp only [] at h
              cases hga : g.get_flag_arg_type hd.value child.word with
              | none =>
                rw [hga] at h
                try simp only [] at h
                rw [← Except.ok.inj h]
              | some ty =>
                rw [hga] at h
                try simp only [] at h
                cases hap2 : getAtPath t1 s.apath with
                | none =>
                  rw [hap2] at h
                  try simp only [] at h
                  exact Except.noConfusion h
                | some apn =>
                  rw [hap2] at h
                  try simp only [] at h
                  rw [← Except.ok.inj h]
          unfold normalize_flag at hnf
          cases hnw : normalize_word cfg child "flag" "" with
          | error e => rw [hnw] at hnf; simp [bind, Except.bind] at hnf
          | ok wl =>
            rw [hnw] at hnf
            cases wl with
            | mk w lg =>
              simp only [bind, Except.bind] at hnf
              cases hat : attachAtPath s.tree s.apath
                  (RNode.mk "flag" w "" ULEFT s.st.next []) with
              | none => rw [hat] at hnf; simp at hnf
              | some q =>
                rw [hat] at hnf
                cases q with
                | mk tt ii =>
                  have hq := Prod.mk.inj (Except.ok.inj hnf)
                  exact ⟨w, ii, by rw [hat, hs2t, hq.2]⟩
  · intro cfg g s child ap s2 hrq hv hap hdo hun hbin hfind hlen hdash h
    unfold attach_flag at h
    rw [hap] at h
    simp only [bind, Except.bind] at h
    have hcond : ¬ (g.is_double_option child.word = true
        ∨ is_unary_logic_op child.word ap.kind ap.value = true
        ∨ child.word ∈ binary_logic_operators ∨ ap.value = "find"
        ∨ child.word.length ≤ 1) := by
      intro hc
      have hll : child.word.toList.length = child.word.length := rfl
      rcases hc with h1 | h2 | h3 | h4 | h5
      · rw [hdo] at h1; exact Bool.noConfusion h1
      · rw [hun] at h2; exact Bool.noConfusion h2
      · exact hbin h3
      · exact hfind h4
      · omega
    rw [if_neg hcond] at h
    have hnn : ¬ ¬ (pyStartsWith child.word "-" = true) := by simp [hdash]
    rw [if_neg hnn] at h
    try simp only [] at h
    have hl1 : ¬ ((child.word.toList.drop 1).length = 1) := by
      simp only [List.length_drop]
      omega
    rw [if_neg hl1] at h
    cases hsp : attachSplitFlags cfg s.tree s.apath child s.st (child.word.toList.drop 1) with
    | error e => rw [hsp] at h; simp [bind, Except.bind] at h
    | ok p =>
      rw [hsp] at h
      cases p with
      | mk rst2 t2 =>
        simp only [bind, Except.bind] at h
        rw [hv] at h
        simp only [Bool.false_eq_true, if_false] at h
        try simp only [] at h
        have hs2t : s2.tree = t2 := by
          cases hh : getHeadCommandOn t2 s.apath with
          | none =>
            rw [hh] at h
            try simp only [] at h
            exact Except.noConfusion h
          | some hd =>
            rw [hh] at h
            try simp only [] at h
            cases hga : g.get_flag_arg_type hd.value child.word with
            | none =>
              rw [hga] at h
              try simp only [] at h
              rw [← Except.ok.inj h]
            | some ty =>
              rw [hga] at h
              try simp only [] at h
              cases hap2 : getAtPath t2 s.apath with
              | none =>
                rw [hap2] at h
                try simp only [] at h
                exact Except.noConfusion h
              | some apn =>
                rw [hap2] at h
                try simp only [] at h
                rw [← Except.ok.inj h]
        obtain ⟨tgt2, hg2, hm⟩ := attachSplitFlags_children (child.word.toList.drop 1)
          cfg s.tree s.apath child s.st ap rst2 t2 hrq hap hsp
        rw [hs2t]
        exact ⟨tgt2, hg2, hm⟩

/-- Witness for C6: the long option --file attaches to the tar head as
one Flag; the clustered -abc at the same attachment point splits into -a,
-b and -c. -/
theorem c6_witness :
    (∃ w idx, attachAtPath s6c.tree s6c.apath (RNode.mk "flag" w "" ULEFT s6c.st.next []) =
        some (s6ca.tree, idx))
    ∧ ∃ tgt2, getAtPath s6cb.tree s6c.apath = some tgt2 ∧
        tgt2.children.map kindValue =
          (RNode.mk "headcommand" "tar" "" 0 1 []).children.map kindValue ++
            ((bWord "-abc" 4 9).word.toList.drop 1).map (fun c => ("flag", "-" ++ String.mk [c])) :=
  ⟨c6_flag_splitting.1 cfg6 testGrammar s6c (bWord "--file" 0 6) s6ca (by rfl) (by rfl),
   c6_flag_splitting.2 cfg6 testGrammar s6c (bWord "-abc" 4 9)
     (RNode.mk "headcommand" "tar" "" 0 1 []) s6cb
     (by rfl) (by rfl) (by rfl) (by rfl) (by rfl) (by decide) (by decide) (by decide)
     (by rfl) (by rfl)⟩

mutual
/-- Loose-mode serialization of a node succeeds when every flag value
with a double-colon separator splits into exactly two pieces. -/
theorem ttfLoose : ∀ (ifo ato wat : Bool) (n : RNode), flagsOkN n = true →
    ∃ ts, to_tokens_fun true ifo ato wat n = .ok ts
  | ifo, ato, wat, .mk k v t a i cs, hok => by
    have hcs : flagsOkL cs = true := by
      unfold flagsOkN at hok
      simp only [Bool.and_eq_true] at hok
      exact hok.2
    have hflag : k = "flag" → pyIn "::" v = true → (pySplit v "::").length = 2 := by
      intro h1 h2
      unfold flagsOkN at hok
      simp only [Bool.and_eq_true] at hok
      have h3 := hok.1
      rw [h1, h2] at h3
      simp at h3
      exact h3
    obtain ⟨lts, hlts⟩ := ttlLoose ifo ato wat cs hcs
    obtain ⟨eps, heps⟩ := tteLoose ifo ato wat cs hcs
    unfold to_tokens_fun
    by_cases hk1 : k = "root"
    · rw [if_pos hk1, if_neg (by simp), if_pos rfl]
      exact ⟨lts, hlts⟩
    rw [if_neg hk1]
    by_cases hk2 : k = "pipeline"
    · rw [if_pos hk2, if_neg (by simp)]
      by_cases hl0 : cs.length < 1
      · rw [if_pos ⟨rfl, hl0⟩]
        exact ⟨_, rfl⟩
      rw [if_neg (by simp [hl0])]
      by_cases hl1 : cs.length = 1
      · rw [if_pos ⟨rfl, hl1⟩]
        cases cs with
        | nil => simp at hl1
        | cons c cs2 =>
          have hc : flagsOkN c = true := by
            unfold flagsOkL at hcs
            simp only [Bool.and_eq_true] at hcs
            exact hcs.1
          simp only []
          exact ttfLoose ifo ato wat c hc
      · rw [if_neg (by simp [hl1])]
        exact ttjLoose ifo ato wat cs "|" hcs (by intro he; rw [he] at hl0; simp at hl0)
    rw [if_neg hk2]
    by_cases hk3 : k = "commandsubstitution"
    · rw [if_pos hk3, if_neg (by simp)]
      by_cases hl0 : cs.length < 1
      · rw [if_pos ⟨rfl, hl0⟩]
        exact ⟨_, rfl⟩
      · rw [if_neg (by simp [hl0])]
        cases cs with
        | nil => exact absurd (by simp) hl0
        | cons c cs2 =>
          have hc : flagsOkN c = true := by
            unfold flagsOkL at hcs
            simp only [Bool.and_eq_true] at hcs
            exact hcs.1
          obtain ⟨ts, hts⟩ := ttfLoose ifo ato wat c hc
          simp only []
          rw [hts]
          simp only [bind, Except.bind]
          exact ⟨_, rfl⟩
    rw [if_neg hk3]
    by_cases hk4 : k = "processsubstitution"
    · rw [if_pos hk4, if_neg (by simp)]
      by_cases hl0 : cs.length < 1
      · rw [if_pos ⟨rfl, hl0⟩]
        exact ⟨_, rfl⟩
      · rw [if_neg (by simp [hl0])]
        cases cs with
        | nil => exact absurd (by simp) hl0
        | cons c cs2 =>
          have hc : flagsOkN c = true := by
            unfold flagsOkL at hcs
            simp only [Bool.and_eq_true] at hcs
            exact hcs.1
          obtain ⟨ts, hts⟩ := ttfLoose ifo ato wat c hc
          simp only []
          rw [hts]
          simp only [bind, Except.bind]
          exact ⟨_, rfl⟩
    rw [if_neg hk4]
    by_cases hk5 : k = "headcommand"
    · rw [if_pos hk5]
      rw [heps]
      simp only [bind, Except.bind]
      exact ⟨_, rfl⟩
    rw [if_neg hk5]
    by_cases hk6 : k = "flag"
    · rw [if_pos hk6]
      by_cases hin : pyIn "::" v = true
      · rw [if_pos hin]
        have hsl := hflag hk6 hin
        rcases hsp : pySplit v "::" with _ | ⟨x, _ | ⟨y, _ | ⟨z, l3⟩⟩⟩
        · rw [hsp] at hsl; simp at hsl
        · rw [hsp] at hsl; simp at hsl
        · simp only []
          rw [hlts]
          simp only [bind, Except.bind]
          exact ⟨_, rfl⟩
        · rw [hsp] at hsl; simp at hsl
      · rw [if_neg hin]
        rw [hlts]
        simp only [bind, Except.bind]
        exact ⟨_, rfl⟩
    rw [if_neg hk6]
    by_cases hk7 : k = "binarylogicop"
    · rw [if_pos hk7, if_neg (by simp)]
      by_cases hl2 : cs.length < 2
      · rw [if_pos ⟨rfl, hl2⟩]
        exact ⟨lts, hlts⟩
      · rw [if_neg (by simp [hl2])]
        obtain ⟨ts, hts⟩ := ttjLoose ifo ato wat cs v hcs
          (by intro he; rw [he] at hl2; simp at hl2)
        rw [hts]
        simp only [bind, Except.bind]
        exact ⟨_, rfl⟩
    rw [if_neg hk7]
    by_cases hk8 : k = "unarylogicop"
    · rw [if_pos hk8, if_neg (by simp)]
      by_cases hl0 : cs.length < 1
      · rw [if_pos ⟨rfl, hl0⟩]
        exact ⟨_, rfl⟩
      rw [if_neg (by simp [hl0])]
      by_cases ha : a = URIGHT
      · rw [if_pos ha]
        cases cs with
        | nil => exact absurd (by simp) hl0
        | cons c cs2 =>
          have hc : flagsOkN c = true := by
            unfold flagsOkL at hcs
            simp only [Bool.and_eq_true] at hcs
            exact hcs.1
          obtain ⟨ts, hts⟩ := ttfLoose ifo ato wat c hc
          simp only []
          rw [hts]
          simp only [bind, Except.bind]
          exact ⟨_, rfl⟩
      · rw [if_neg ha]
        cases cs with
        | nil => exact ⟨_, rfl⟩
        | cons c cs2 =>
          have hc : flagsOkN c = true := by
            unfold flagsOkL at hcs
            simp only [Bool.and_eq_true] at hcs
            exact hcs.1
          obtain ⟨ts, hts⟩ := ttfLoose ifo ato wat c hc
          simp only []
          rw [hts]
          simp only [bind, Except.bind]
          exact ⟨_, rfl⟩
    rw [if_neg hk8]
    by_cases hk9 : k = "argument"
    · rw [if_pos hk9, if_neg (by simp)]
      simp only []
      simp only [if_true]
      rw [hlts]
      simp only [bind, Except.bind]
      exact ⟨_, rfl⟩
    · rw [if_neg hk9]
      exact ⟨_, rfl⟩

/-- Loose-mode serialization of a child list succeeds under the flag
invariant. -/
theorem ttlLoose : ∀ (ifo ato wat : Bool) (cs : List RNode), flagsOkL cs = true →
    ∃ ts, to_tokens_list true ifo ato wat cs = .ok ts
  | _, _, _, [], _ => ⟨[], rfl⟩
  | ifo, ato, wat, c :: cs, hok => by
    have hok2 : flagsOkN c = true ∧ flagsOkL cs = true := by
      unfold flagsOkL at hok
      simp only [Bool.and_eq_true] at hok
      exact hok
    obtain ⟨ts, hts⟩ := ttfLoose ifo ato wat c hok2.1
    obtain ⟨rest, hrest⟩ := ttlLoose ifo ato wat cs hok2.2
    refine ⟨ts ++ rest, ?_⟩
    unfold to_tokens_list
    rw [hts]
    simp only [bind, Except.bind]
    rw [hrest]

/-- Loose-mode per-child serialization succeeds under the flag
invariant. -/
theorem tteLoose : ∀ (ifo ato wat : Bool) (cs : List RNode), flagsOkL cs = true →
    ∃ ps, to_tokens_each true ifo ato wat cs = .ok ps
  | _, _, _, [], _ => ⟨[], rfl⟩
  | ifo, ato, wat, c :: cs, hok => by
    have hok2 : flagsOkN c = true ∧ flagsOkL cs = true := by
      unfold flagsOkL at hok
      simp only [Bool.and_eq_true] at hok
      exact hok
    obtain ⟨ts, hts⟩ := ttfLoose ifo ato wat c hok2.1
    obtain ⟨rest, hrest⟩ := tteLoose ifo ato wat cs hok2.2
    refine ⟨(c.value, ts) :: rest, ?_⟩
    unfold to_tokens_each
    rw [hts]
    simp only [bind, Except.bind]
    rw [hrest]

/-- Loose-mode separator-joined serialization of a nonempty child list
succeeds under the flag invariant. -/
theorem ttjLoose : ∀ (ifo ato wat : Bool) (cs : List RNode) (sep : String),
    flagsOkL cs = true → cs ≠ [] →
    ∃ ts, to_tokens_join true ifo ato wat cs sep = .ok ts
  | _, _, _, [], _, _, hne => absurd rfl hne
  | ifo, ato, wat, [c], sep, hok, _ => by
    have h1 : flagsOkN c = true := by
      unfold flagsOkL at hok
      simp only [Bool.and_eq_true] at hok
      exact hok.1
    obtain ⟨ts, hts⟩ := ttfLoose ifo ato wat c h1
    exact ⟨ts, by unfold to_tokens_join; exact hts⟩
  | ifo, ato, wat, c :: c2 :: cs, sep, hok, _ => by
    have hok2 : flagsOkN c = true ∧ flagsOkL (c2 :: cs) = true := by
      unfold flagsOkL at hok
      simp only [Bool.and_eq_true] at hok
      exact hok
    obtain ⟨ts, hts⟩ := ttfLoose ifo ato wat c hok2.1
    obtain ⟨rest, hrest⟩ := ttjLoose ifo ato wat (c2 :: cs) sep hok2.2 (by simp)
    refine ⟨ts ++ (sep :: rest), ?_⟩
    unfold to_tokens_join
    rw [hts]
    simp only [bind, Except.bind]
    rw [hrest]
end

/-- Claim C8 (amended): loose-mode serialization returns a token list for
every tree in which each Flag value containing the double-colon separator
splits into exactly two pieces; the remaining order flags are arbitrary. -/
theorem c8_loose_total (n : RNode) (ifo ato wat : Bool) (h : flagsOkN n = true) :
    ∃ ts, to_tokens (some n) true ifo ato wat = .ok ts := by
  obtain ⟨ts, hts⟩ := ttfLoose ifo ato wat n h
  exact ⟨ts, hts⟩

/-- Witness for C8: loose serialization of the concrete find tree
succeeds. -/
theorem c8_witness : ∃ ts, to_tokens (some c2tree) true false false false = .ok ts :=
  c8_loose_total c2tree false false false (by rfl)

/-- pfL is the conjunction of pfN over the list. -/
theorem pfL_eq_all : ∀ xs : List RNode, pfL xs = xs.all pfN
  | [] => rfl
  | c :: cs => by
    unfold pfL
    rw [pfL_eq_all cs]
    simp [List.all_cons]

/-- pfL over a cons. -/
theorem pfL_cons (c : RNode) (cs : List RNode) : pfL (c :: cs) = (pfN c && pfL cs) := rfl

/-- pfL distributes over append. -/
theorem pfL_append_eq (xs ys : List RNode) : pfL (xs ++ ys) = (pfL xs && pfL ys) := by
  simp [pfL_eq_all]

/-- pfL is invariant under reversal. -/
theorem pfL_reverse_eq (xs : List RNode) : pfL xs.reverse = pfL xs := by
  simp [pfL_eq_all]

/-- pfN split into the node test and the child-list test. -/
theorem pfN_split (n : RNode) :
    pfN n = ((!(n.kind == "argument" && (n.value == "(" || n.value == ")"))) && pfL n.children) := by
  cases n
  rfl

/-- Overwriting associativity does not change pfN. -/
theorem pfN_setAssoc_eq (n : RNode) (a : Nat) : pfN (n.setAssoc a) = pfN n := by
  cases n
  rfl

/-- pfN after a child append. -/
theorem pfN_addChild_eq (n c : RNode) : pfN (n.addChild c) = (pfN n && pfN c) := by
  cases n
  simp [RNode.addChild, RNode.withChildren, RNode.children, pfN, pfL_eq_all, List.all_append,
    Bool.and_assoc]

/-- pfN after a child-list replacement. -/
theorem pfN_withChildren_eq (n : RNode) (cs : List RNode) :
    pfN (n.withChildren cs) =
      ((!(n.kind == "argument" && (n.value == "(" || n.value == ")"))) && pfL cs) := by
  cases n
  rfl

/-- Child replacement keeps the kind. -/
theorem kind_withChildren (n : RNode) (cs : List RNode) : (n.withChildren cs).kind = n.kind := by
  cases n
  rfl

/-- Child replacement keeps the value. -/
theorem value_withChildren (n : RNode) (cs : List RNode) : (n.withChildren cs).value = n.value := by
  cases n
  rfl

/-- Child replacement installs the new children. -/
theorem children_withChildren (n : RNode) (cs : List RNode) :
    (n.withChildren cs).children = cs := by
  cases n
  rfl

/-- setAssoc accessor reductions. -/
theorem kind_setAssoc (n : RNode) (a : Nat) : (n.setAssoc a).kind = n.kind := by
  cases n
  rfl

theorem value_setAssoc (n : RNode) (a : Nat) : (n.setAssoc a).value = n.value := by
  cases n
  rfl

theorem children_setAssoc (n : RNode) (a : Nat) : (n.setAssoc a).children = n.children := by
  cases n
  rfl

/-- addChild accessor reductions. -/
theorem kind_addChild (n c : RNode) : (n.addChild c).kind = n.kind := by
  cases n
  rfl

theorem value_addChild (n c : RNode) : (n.addChild c).value = n.value := by
  cases n
  rfl

theorem children_addChild (n c : RNode) : (n.addChild c).children = n.children ++ [c] := by
  cases n
  rfl

/-- Splitting a parenthesis-free chain yields parenthesis-free parts. -/
theorem splitAtNid_pf : ∀ (chain preRev : List RNode) (nid : Nat) (pre2 : List RNode)
    (n : RNode) (post : List RNode), pfL preRev = true → pfL chain = true →
    splitAtNid nid preRev chain = some (pre2, n, post) →
    pfL pre2 = true ∧ pfN n = true ∧ pfL post = true
  | [], preRev, nid, pre2, n, post, hp, hc, h => by
    unfold splitAtNid at h
    exact Option.noConfusion h
  | c :: cs, preRev, nid, pre2, n, post, hp, hc, h => by
    unfold splitAtNid at h
    rw [pfL_cons, Bool.and_eq_true] at hc
    split at h
    · have h3 := Prod.mk.inj (Option.some.inj h)
      have h4 := Prod.mk.inj h3.2
      rw [← h3.1, ← h4.1, ← h4.2]
      exact ⟨hp, hc.1, hc.2⟩
    · exact splitAtNid_pf cs (c :: preRev) nid pre2 n post
        (by rw [pfL_cons, hc.1, hp]; rfl) hc.2 h

/-- The deferred unary adjustment preserves parenthesis-freeness of the
chain. -/
theorem adjust_unary_at_pf (nid : Nat) (st : RSt) (chain : List RNode) (st2 : RSt)
    (out : List RNode) (b : Bool) (hc : pfL chain = true)
    (h : adjust_unary_at nid st chain = .ok (st2, out, b)) : pfL out = true := by
  unfold adjust_unary_at at h
  cases hs : splitAtNid nid [] chain with
  | none =>
    rw [hs] at h
    simp only [] at h
    have h3 := Prod.mk.inj (Except.ok.inj h)
    have h4 := Prod.mk.inj h3.2
    rw [← h4.1]
    exact hc
  | some q =>
    rw [hs] at h
    obtain ⟨pre2, n, post⟩ := q
    have hsp := splitAtNid_pf chain [] nid pre2 n post rfl hc hs
    simp only [] at h
    repeat' split at h
    all_goals try (simp only [] at h)
    all_goals repeat' split at h
    all_goals try (exact Except.noConfusion h)
    all_goals try (simp only [Except.ok.injEq, Prod.mk.injEq] at h)
    all_goals try (obtain ⟨h5, h6, h7⟩ := h
                   subst h6
                   simp_all [pfL_append_eq, pfL_reverse_eq, pfL_cons, pfN_setAssoc_eq, pfN_addChild_eq, pfN_withChildren_eq, pfN_split, kind_withChildren, value_withChildren, children_withChildren, kind_setAssoc, value_setAssoc, children_setAssoc, kind_addChild, value_addChild, children_addChild, pfL])
    all_goals simp_all [pfL_append_eq, pfL_reverse_eq, pfL_cons, pfN_setAssoc_eq, pfN_addChild_eq, pfN_withChildren_eq, pfN_split, kind_withChildren, value_withChildren, children_withChildren, kind_setAssoc, value_setAssoc, children_setAssoc, kind_addChild, value_addChild, children_addChild, pfL]

/-- The deferred binary adjustment preserves parenthesis-freeness of the
chain. -/
theorem adjust_binary_at_pf (nid : Nat) (st : RSt) (chain : List RNode) (st2 : RSt)
    (out : List RNode) (b : Bool) (hc : pfL chain = true)
    (h : adjust_binary_at nid st chain = .ok (st2, out, b)) : pfL out = true := by
  unfold adjust_binary_at at h
  cases hs : splitAtNid nid [] chain with
  | none =>
    rw [hs] at h
    simp only [] at h
    have h3 := Prod.mk.inj (Except.ok.inj h)
    have h4 := Prod.mk.inj h3.2
    rw [← h4.1]
    exact hc
  | some q =>
    rw [hs] at h
    obtain ⟨pre2, n, post⟩ := q
    have hsp := splitAtNid_pf chain [] nid pre2 n post rfl hc hs
    simp only [] at h
    repeat' split at h
    all_goals try (simp only [] at h)
    all_goals repeat' split at h
    all_goals try (exact Except.noConfusion h)
    all_goals try (simp only [Except.ok.injEq, Prod.mk.injEq] at h)
    all_goals try (obtain ⟨h5, h6, h7⟩ := h
                   subst h6
                   simp_all [pfL_append_eq, pfL_reverse_eq, pfL_cons, pfN_setAssoc_eq, pfN_addChild_eq, pfN_withChildren_eq, pfN_split, kind_withChildren, value_withChildren, children_withChildren, kind_setAssoc, value_setAssoc, children_setAssoc, kind_addChild, value_addChild, children_addChild, pfL])
    all_goals simp_all [pfL_append_eq, pfL_reverse_eq, pfL_cons, pfN_setAssoc_eq, pfN_addChild_eq, pfN_withChildren_eq, pfN_split, kind_withChildren, value_withChildren, children_withChildren, kind_setAssoc, value_setAssoc, children_setAssoc, kind_addChild, value_addChild, children_addChild, pfL]

/-- Dispatching to either chain adjuster preserves
parenthesis-freeness. -/
theorem adjustAt_pf (isU : Bool) (nid : Nat) (st : RSt) (chain : List RNode) (st2 : RSt)
    (out : List RNode) (b : Bool) (hc : pfL chain = true)
    (h : adjustAt isU nid st chain = .ok (st2, out, b)) : pfL out = true := by
  unfold adjustAt at h
  cases isU with
  | true => exact adjust_unary_at_pf nid st chain st2 out b hc (by simpa using h)
  | false => exact adjust_binary_at_pf nid st chain st2 out b hc (by simpa using h)

mutual
/-- The deferred-operator subtree rewrite preserves
parenthesis-freeness of a node. -/
theorem adjN_pf : ∀ (isU : Bool) (nid : Nat) (st : RSt) (n : RNode) (st2 : RSt) (n2 : RNode)
    (b : Bool), pfN n = true → adjN isU nid st n = .ok (st2, n2, b) → pfN n2 = true
  | isU, nid, st, .mk k v t a i cs, st2, n2, b, hpf, h => by
    have hpf2 := hpf
    rw [pfN_split] at hpf2
    simp only [Bool.and_eq_true, RNode.kind, RNode.value, RNode.children] at hpf2
    unfold adjN at h
    split at h
    · cases hadj : adjustAt isU nid st cs with
      | error e => rw [hadj] at h; simp [bind, Except.bind] at h
      | ok p =>
        rw [hadj] at h
        obtain ⟨st3, cs2, adopted⟩ := p
        have hcs2 : pfL cs2 = true := adjustAt_pf isU nid st cs st3 cs2 adopted hpf2.2 hadj
        simp only [bind, Except.bind] at h
        repeat' split at h
        all_goals simp only [Except.ok.injEq, Prod.mk.injEq] at h
        all_goals obtain ⟨h5, h6, h7⟩ := h
        all_goals subst h6
        all_goals rw [pfN_split]
        all_goals simp_all [RNode.kind, RNode.value, RNode.children, pfN_split, pfL, pfL_cons]
    · cases hadj : adjL isU nid st cs with
      | error e => rw [hadj] at h; simp [bind, Except.bind] at h
      | ok p =>
        rw [hadj] at h
        obtain ⟨st3, cs2, found⟩ := p
        have hcs2 : pfL cs2 = true := adjL_pf isU nid st cs st3 cs2 found hpf2.2 hadj
        simp only [bind, Except.bind] at h
        simp only [Except.ok.injEq, Prod.mk.injEq] at h
        obtain ⟨h5, h6, h7⟩ := h
        subst h6
        rw [pfN_split]
        simp_all [RNode.kind, RNode.value, RNode.children]

/-- The deferred-operator search preserves parenthesis-freeness of a
child list. -/
theorem adjL_pf : ∀ (isU : Bool) (nid : Nat) (st : RSt) (cs : List RNode) (st2 : RSt)
    (cs2 : List RNode) (b : Bool), pfL cs = true →
    adjL isU nid st cs = .ok (st2, cs2, b) → pfL cs2 = true
  | isU, nid, st, [], st2, cs2, b, hpf, h => by
    unfold adjL at h
    simp only [Except.ok.injEq, Prod.mk.injEq] at h
    obtain ⟨h5, h6, h7⟩ := h
    subst h6
    rfl
  | isU, nid, st, c :: cs, st2, cs2, b, hpf, h => by
    rw [pfL_cons, Bool.and_eq_true] at hpf
    unfold adjL at h
    cases hn : adjN isU nid st c with
    | error e => rw [hn] at h; simp [bind, Except.bind] at h
    | ok p =>
      rw [hn] at h
      obtain ⟨st3, c2, found⟩ := p
      have hc2 : pfN c2 = true := adjN_pf isU nid st c st3 c2 found hpf.1 hn
      simp only [bind, Except.bind] at h
      split at h
      · simp only [Except.ok.injEq, Prod.mk.injEq] at h
        obtain ⟨h5, h6, h7⟩ := h
        subst h6
        rw [pfL_cons, hc2, hpf.2]
        rfl
      · cases hl : adjL isU nid st3 cs with
        | error e => rw [hl] at h; simp [bind, Except.bind] at h
        | ok p2 =>
          rw [hl] at h
          obtain ⟨st4, cs3, found2⟩ := p2
          have hcs3 : pfL cs3 = true := adjL_pf isU nid st3 cs st4 cs3 found2 hpf.2 hl
          simp only [bind, Except.bind] at h
          simp only [Except.ok.injEq, Prod.mk.injEq] at h
          obtain ⟨h5, h6, h7⟩ := h
          subst h6
          rw [pfL_cons, hc2, hcs3]
          rfl
end

